/-
Verification of the RTP parameter negotiation core (ortc) of the mediasoup
router, as implemented in src/rust/src/ortc.rs.

The development shallowly embeds the data model and the five transformations
(capability finalizer, producer mapping builder, consumable builder, consumer
projector, pipe consumer projector) as executable Lean definitions, and proves
the specification's claims about them.

Value types (RtpParameters and friends), the supported-capabilities table, the
scalability-mode parser and the H.264 profile-level-id helper live outside the
sources available here; those are modelled from the specification and are
marked as such in their doc comments.  Everything in ortc.rs itself is
translated directly from the source.
-/
import Mathlib

deriving instance DecidableEq for Except

namespace Ortc

/-! ### Comparator theory

Rust's `BTreeMap` iterates its entries in ascending key order, where the key
order of a `#[derive(Ord)]` type is lexicographic in declaration order of
variants and fields.  We build a small theory of lawful comparators to model
this faithfully. -/

/-- Comparator induced by a linear order, mirroring Rust's derived `Ord` on
primitive fields. -/
def oCmp {α : Type _} [LinearOrder α] (a b : α) : Ordering :=
  if a < b then .lt else if b < a then .gt else .eq

/-- The laws a comparator must satisfy to model a `BTreeMap` key order:
it decides equality, it is antisymmetric under swapping, and `lt` is
transitive. -/
structure LawCmp {α : Type _} (c : α → α → Ordering) : Prop where
  eq_iff : ∀ a b, c a b = .eq ↔ a = b
  swap_eq : ∀ a b, (c a b).swap = c b a
  lt_trans : ∀ {a b d}, c a b = .lt → c b d = .lt → c a d = .lt

theorem oCmp_eq_lt {α : Type _} [LinearOrder α] {a b : α} :
    oCmp a b = .lt ↔ a < b := by
  unfold oCmp
  by_cases h : a < b <;> simp [h]

theorem oCmp_eq_eq {α : Type _} [LinearOrder α] {a b : α} :
    oCmp a b = .eq ↔ a = b := by
  unfold oCmp
  by_cases h : a < b
  · simp [h, ne_of_lt h]
  · by_cases h2 : b < a
    · simp [h, h2, (ne_of_lt h2).symm]
    · simp [h, h2, le_antisymm (le_of_not_lt h2) (le_of_not_lt h)]

theorem lawCmp_oCmp {α : Type _} [LinearOrder α] : LawCmp (oCmp (α := α)) := by
  constructor
  · intro a b; exact oCmp_eq_eq
  · intro a b
    unfold oCmp
    rcases lt_trichotomy a b with h | h | h
    · simp [h, not_lt_of_gt h, Ordering.swap]
    · simp [h, lt_irrefl, Ordering.swap]
    · simp [h, not_lt_of_gt h, Ordering.swap]
  · intro a b d hab hbd
    exact oCmp_eq_lt.mpr (lt_trans (oCmp_eq_lt.mp hab) (oCmp_eq_lt.mp hbd))

theorem LawCmp.lt_asymm {α : Type _} {c : α → α → Ordering} (h : LawCmp c)
    {a b : α} (hab : c a b = .lt) : c b a = .gt := by
  rw [← h.swap_eq, hab]; rfl

theorem LawCmp.gt_to_lt {α : Type _} {c : α → α → Ordering} (h : LawCmp c)
    {a b : α} (hab : c a b = .gt) : c b a = .lt := by
  rw [← h.swap_eq, hab]; rfl

theorem LawCmp.lt_ne {α : Type _} {c : α → α → Ordering} (h : LawCmp c)
    {a b : α} (hab : c a b = .lt) : a ≠ b := by
  intro he
  rw [(h.eq_iff a b).mpr he] at hab
  exact absurd hab (by simp)

/-- Lexicographic comparator on pairs (Rust: field-by-field derived `Ord`). -/
def prodCmp {α β : Type _} (c₁ : α → α → Ordering) (c₂ : β → β → Ordering)
    (p q : α × β) : Ordering :=
  if c₁ p.1 q.1 = .eq then c₂ p.2 q.2 else c₁ p.1 q.1

theorem lawCmp_prodCmp {α β : Type _} {c₁ : α → α → Ordering}
    {c₂ : β → β → Ordering} (h₁ : LawCmp c₁) (h₂ : LawCmp c₂) :
    LawCmp (prodCmp c₁ c₂) := by
  constructor
  · rintro ⟨a1, a2⟩ ⟨b1, b2⟩
    by_cases h : c₁ a1 b1 = .eq
    · have he : a1 = b1 := (h₁.eq_iff a1 b1).mp h
      subst he
      simp [prodCmp, (h₁.eq_iff a1 a1).mpr rfl, h₂.eq_iff]
    · simp only [prodCmp, h, if_false]
      constructor
      · intro hc; exact hc.elim
      · intro hc
        exact absurd ((h₁.eq_iff a1 b1).mpr (congrArg Prod.fst hc)) h
  · rintro ⟨a1, a2⟩ ⟨b1, b2⟩
    by_cases h : c₁ a1 b1 = .eq
    · have hba : c₁ b1 a1 = .eq := (h₁.eq_iff b1 a1).mpr ((h₁.eq_iff a1 b1).mp h).symm
      simp [prodCmp, h, hba, h₂.swap_eq]
    · have hba : c₁ b1 a1 ≠ .eq := by
        intro hc
        exact h ((h₁.eq_iff a1 b1).mpr ((h₁.eq_iff b1 a1).mp hc).symm)
      simp [prodCmp, h, hba, h₁.swap_eq]
  · rintro ⟨a1, a2⟩ ⟨b1, b2⟩ ⟨d1, d2⟩ hab hbd
    simp only [prodCmp] at hab hbd ⊢
    by_cases h : c₁ a1 b1 = .eq
    · have he : a1 = b1 := (h₁.eq_iff a1 b1).mp h
      subst he
      rw [if_pos h] at hab
      by_cases h2 : c₁ a1 d1 = .eq
      · rw [if_pos h2] at hbd ⊢
        exact h₂.lt_trans hab hbd
      · rw [if_neg h2] at hbd ⊢
        exact hbd
    · rw [if_neg h] at hab
      by_cases h2 : c₁ b1 d1 = .eq
      · have he : b1 = d1 := (h₁.eq_iff b1 d1).mp h2
        subst he
        rw [if_neg h, hab]
      · rw [if_neg h2] at hbd
        have := h₁.lt_trans hab hbd
        rw [if_neg (by simp [this]), this]

/-- Lexicographic comparator on lists (Rust: derived `Ord` on `Vec`). -/
def listCmp {α : Type _} (c : α → α → Ordering) : List α → List α → Ordering
  | [], [] => .eq
  | [], _ :: _ => .lt
  | _ :: _, [] => .gt
  | a :: as, b :: bs => if c a b = .eq then listCmp c as bs else c a b

theorem lawCmp_listCmp {α : Type _} {c : α → α → Ordering} (h : LawCmp c) :
    LawCmp (listCmp c) := by
  constructor
  · intro as
    induction as with
    | nil => intro bs; cases bs <;> simp [listCmp]
    | cons a as ih =>
      intro bs
      cases bs with
      | nil => simp [listCmp]
      | cons b bs =>
        by_cases hab : c a b = .eq
        · have he : a = b := (h.eq_iff a b).mp hab
          subst he
          simp [listCmp, (h.eq_iff a a).mpr rfl, ih bs]
        · simp only [listCmp, hab, if_false]
          constructor
          · intro hc; exact hc.elim
          · intro hc
            exact absurd ((h.eq_iff a b).mpr (by injection hc)) hab
  · intro as
    induction as with
    | nil => intro bs; cases bs <;> simp [listCmp, Ordering.swap]
    | cons a as ih =>
      intro bs
      cases bs with
      | nil => simp [listCmp, Ordering.swap]
      | cons b bs =>
        by_cases hab : c a b = .eq
        · have hba : c b a = .eq := (h.eq_iff b a).mpr ((h.eq_iff a b).mp hab).symm
          simp [listCmp, hab, hba, ih bs]
        · have hba : c b a ≠ .eq := by
            intro hc
            exact hab ((h.eq_iff a b).mpr ((h.eq_iff b a).mp hc).symm)
          simp [listCmp, hab, hba, h.swap_eq]
  · intro as
    induction as with
    | nil =>
      intro bs ds hab hbd
      cases bs with
      | nil => cases ds <;> simp_all [listCmp]
      | cons b bs =>
        cases ds with
        | nil => simp [listCmp] at hbd
        | cons d ds => simp [listCmp]
    | cons a as ih =>
      intro bs ds hab hbd
      cases bs with
      | nil => simp [listCmp] at hab
      | cons b bs =>
        cases ds with
        | nil => simp [listCmp] at hbd
        | cons d ds =>
          simp only [listCmp] at hab hbd ⊢
          by_cases h1 : c a b = .eq
          · have he : a = b := (h.eq_iff a b).mp h1
            subst he
            rw [if_pos h1] at hab
            by_cases h2 : c a d = .eq
            · rw [if_pos h2] at hbd ⊢
              exact ih hab hbd
            · rw [if_neg h2] at hbd ⊢
              exact hbd
          · rw [if_neg h1] at hab
            by_cases h2 : c b d = .eq
            · have he : b = d := (h.eq_iff b d).mp h2
              subst he
              rw [if_neg h1, hab]
            · rw [if_neg h2] at hbd
              have := h.lt_trans hab hbd
              rw [if_neg (by simp [this]), this]

/-- Comparator pulled back along a function; lawful when the function is
injective. -/
def mapCmp {α β : Type _} (f : α → β) (c : β → β → Ordering) (a b : α) :
    Ordering :=
  c (f a) (f b)

theorem lawCmp_mapCmp {α β : Type _} {f : α → β} {c : β → β → Ordering}
    (h : LawCmp c) (hf : Function.Injective f) : LawCmp (mapCmp f c) := by
  constructor
  · intro a b
    unfold mapCmp
    rw [h.eq_iff]
    exact ⟨fun hc => hf hc, fun hc => by rw [hc]⟩
  · intro a b; exact h.swap_eq _ _
  · intro a b d hab hbd; exact h.lt_trans hab hbd

/-! ### Data model

Modelled from the spec, section 3 (the value types live in
`rtp_parameters.rs`, which is not among the available sources; field and
variant declaration order follows the spec's listing, which fixes the derived
`Ord` used by `BTreeMap` keys). -/

/-- Modelled from the spec: `MediaKind`: `Audio | Video`. -/
inductive MediaKind
  | Audio
  | Video
deriving DecidableEq

/-- Modelled from the spec: audio mime types. -/
inductive MimeTypeAudio
  | Opus
  | PCMU
  | PCMA
  | ISAC
  | G722
  | CN
  | TelephoneEvent
deriving DecidableEq

/-- Modelled from the spec: video mime types; `RTX` is a marker mime type. -/
inductive MimeTypeVideo
  | VP8
  | VP9
  | H264
  | H265
  | RTX
deriving DecidableEq

/-- Modelled from the spec: tagged union over audio and video mime types. -/
inductive MimeType
  | audio (m : MimeTypeAudio)
  | video (m : MimeTypeVideo)
deriving DecidableEq

/-- Modelled from the spec: RTCP feedback messages of behavioral significance
(`nack`, `nack pli`, `ccm fir`, `goog-remb`, `transport-cc`, plus a catch-all
for unsupported ones). -/
inductive RtcpFeedback
  | Nack
  | NackPli
  | CcmFir
  | GoogRemb
  | TransportCC
  | Unsupported
deriving DecidableEq

/-- Modelled from the spec: a codec parameter value is a non-negative integer
or a string. -/
inductive ParamValue
  | num (n : Nat)
  | str (s : String)
deriving DecidableEq

/-- Modelled from the spec: `RtpCodecParametersParameters` is an ordered
mapping from parameter name to value. -/
abbrev Parameters := List (String × ParamValue)

/-- Lookup in an ordered parameter mapping. -/
def paramsGet (ps : Parameters) (k : String) : Option ParamValue :=
  (ps.find? (fun p => p.1 == k)).map (·.2)

/-- Insert into an ordered parameter mapping: replace in place on key
collision, else append. -/
def paramsInsert (ps : Parameters) (k : String) (v : ParamValue) : Parameters :=
  if ps.any (fun p => p.1 == k) then
    ps.map (fun p => if p.1 == k then (k, v) else p)
  else
    ps ++ [(k, v)]

/-- Extend an ordered parameter mapping by another one; the right-hand side
overrides on key collision. -/
def paramsExtend (ps qs : Parameters) : Parameters :=
  qs.foldl (fun acc p => paramsInsert acc p.1 p.2) ps

/-- Modelled from the spec: RTP header extension URIs; `MID`, `AbsSendTime`
and `TransportWideCCDraft01` are the behaviorally significant ones. -/
inductive RtpHeaderExtensionUri
  | MID
  | RtpStreamId
  | RepairedRtpStreamId
  | AbsSendTime
  | TransportWideCCDraft01
  | FrameMarkingDraft07
  | AudioLevel
  | VideoOrientation
  | TimeOffset
deriving DecidableEq

/-- Modelled from the spec: header extension direction. -/
inductive RtpHeaderExtensionDirection
  | SendRecv
  | SendOnly
  | RecvOnly
  | Inactive
deriving DecidableEq

/-- Modelled from the spec: `RtpHeaderExtension`. -/
structure RtpHeaderExtension where
  kind : Option MediaKind
  uri : RtpHeaderExtensionUri
  preferredId : Nat
  preferredEncrypt : Bool
  direction : RtpHeaderExtensionDirection
deriving DecidableEq

/-- Modelled from the spec: header extension parameters carried in
`RtpParameters`. -/
structure RtpHeaderExtensionParameters where
  uri : RtpHeaderExtensionUri
  id : Nat
  encrypt : Bool
deriving DecidableEq

/-- Modelled from the spec: the RTX part of an encoding (`rtx{ssrc}`). -/
structure RtpEncodingParametersRtx where
  ssrc : Nat
deriving DecidableEq

/-- Modelled from the spec: `RtpEncodingParameters`. -/
structure RtpEncodingParameters where
  ssrc : Option Nat := none
  rid : Option String := none
  codecPayloadType : Option Nat := none
  rtx : Option RtpEncodingParametersRtx := none
  dtx : Option Bool := none
  scalabilityMode : Option String := none
  maxBitrate : Option Nat := none
deriving DecidableEq

/-- Modelled from the spec: RTCP parameters `{cname?, reduced_size, mux?}`. -/
structure RtcpParameters where
  cname : Option String := none
  reducedSize : Bool := true
  mux : Option Bool := none
deriving DecidableEq

/-- Modelled from the spec: `RtpCodecParameters` (on the wire for
producers/consumers), tagged by kind; audio carries `channels`. -/
inductive RtpCodecParameters
  | audio (mimeType : MimeTypeAudio) (payloadType : Nat) (clockRate : Nat)
      (channels : Nat) (parameters : Parameters)
      (rtcpFeedback : List RtcpFeedback)
  | video (mimeType : MimeTypeVideo) (payloadType : Nat) (clockRate : Nat)
      (parameters : Parameters) (rtcpFeedback : List RtcpFeedback)
deriving DecidableEq

namespace RtpCodecParameters

def payloadType : RtpCodecParameters → Nat
  | audio _ pt _ _ _ _ => pt
  | video _ pt _ _ _ => pt

def mimeType : RtpCodecParameters → MimeType
  | audio m _ _ _ _ _ => .audio m
  | video m _ _ _ _ => .video m

def parameters : RtpCodecParameters → Parameters
  | audio _ _ _ _ ps _ => ps
  | video _ _ _ ps _ => ps

def rtcpFeedback : RtpCodecParameters → List RtcpFeedback
  | audio _ _ _ _ _ fb => fb
  | video _ _ _ _ fb => fb

/-- `is_rtx`: the codec's mime type is `video/rtx`. -/
def isRtx : RtpCodecParameters → Bool
  | video .RTX _ _ _ _ => true
  | _ => false

/-- Replace the codec's RTCP feedback list (Rust:
`*codec.rtcp_feedback_mut() = ...`). -/
def withRtcpFeedback : RtpCodecParameters → List RtcpFeedback → RtpCodecParameters
  | audio m pt cr ch ps _, fb => audio m pt cr ch ps fb
  | video m pt cr ps _, fb => video m pt cr ps fb

/-- Filter the codec's RTCP feedback list in place (Rust:
`codec.rtcp_feedback_mut().retain(...)`). -/
def retainRtcpFeedback (c : RtpCodecParameters) (p : RtcpFeedback → Bool) :
    RtpCodecParameters :=
  c.withRtcpFeedback (c.rtcpFeedback.filter p)

end RtpCodecParameters

/-- Modelled from the spec: `RtpCodecCapability` (input form), tagged by kind,
with optional `preferred_payload_type`. -/
inductive RtpCodecCapability
  | audio (mimeType : MimeTypeAudio) (preferredPayloadType : Option Nat)
      (clockRate : Nat) (channels : Nat) (parameters : Parameters)
      (rtcpFeedback : List RtcpFeedback)
  | video (mimeType : MimeTypeVideo) (preferredPayloadType : Option Nat)
      (clockRate : Nat) (parameters : Parameters)
      (rtcpFeedback : List RtcpFeedback)
deriving DecidableEq

namespace RtpCodecCapability

def preferredPayloadType : RtpCodecCapability → Option Nat
  | audio _ pt _ _ _ _ => pt
  | video _ pt _ _ _ => pt

def mimeType : RtpCodecCapability → MimeType
  | audio m _ _ _ _ _ => .audio m
  | video m _ _ _ _ => .video m

def parameters : RtpCodecCapability → Parameters
  | audio _ _ _ _ ps _ => ps
  | video _ _ _ ps _ => ps

def rtcpFeedback : RtpCodecCapability → List RtcpFeedback
  | audio _ _ _ _ _ fb => fb
  | video _ _ _ _ fb => fb

end RtpCodecCapability

/-- Modelled from the spec: `RtpCodecCapabilityFinalized`, same as the input
form but `preferred_payload_type` is required. -/
inductive RtpCodecCapabilityFinalized
  | audio (mimeType : MimeTypeAudio) (preferredPayloadType : Nat)
      (clockRate : Nat) (channels : Nat) (parameters : Parameters)
      (rtcpFeedback : List RtcpFeedback)
  | video (mimeType : MimeTypeVideo) (preferredPayloadType : Nat)
      (clockRate : Nat) (parameters : Parameters)
      (rtcpFeedback : List RtcpFeedback)
deriving DecidableEq

namespace RtpCodecCapabilityFinalized

def preferredPayloadType : RtpCodecCapabilityFinalized → Nat
  | audio _ pt _ _ _ _ => pt
  | video _ pt _ _ _ => pt

def mimeType : RtpCodecCapabilityFinalized → MimeType
  | audio m _ _ _ _ _ => .audio m
  | video m _ _ _ _ => .video m

def clockRate : RtpCodecCapabilityFinalized → Nat
  | audio _ _ cr _ _ _ => cr
  | video _ _ cr _ _ => cr

def parameters : RtpCodecCapabilityFinalized → Parameters
  | audio _ _ _ _ ps _ => ps
  | video _ _ _ ps _ => ps

def rtcpFeedback : RtpCodecCapabilityFinalized → List RtcpFeedback
  | audio _ _ _ _ _ fb => fb
  | video _ _ _ _ fb => fb

/-- `is_rtx`: the codec's mime type is `video/rtx`. -/
def isRtx : RtpCodecCapabilityFinalized → Bool
  | video .RTX _ _ _ _ => true
  | _ => false

/-- Insert a parameter into the codec's parameter map (Rust:
`cap_codec.parameters_mut().insert(...)`). -/
def insertParameter (c : RtpCodecCapabilityFinalized) (k : String)
    (v : ParamValue) : RtpCodecCapabilityFinalized :=
  match c with
  | audio m pt cr ch ps fb => audio m pt cr ch (paramsInsert ps k v) fb
  | video m pt cr ps fb => video m pt cr (paramsInsert ps k v) fb

end RtpCodecCapabilityFinalized

/-- Modelled from the spec: `RtpParameters`. -/
structure RtpParameters where
  mid : Option String := none
  codecs : List RtpCodecParameters := []
  headerExtensions : List RtpHeaderExtensionParameters := []
  encodings : List RtpEncodingParameters := []
  rtcp : RtcpParameters := {}
deriving DecidableEq

/-- Modelled from the spec: `RtpCapabilities` (input form). -/
structure RtpCapabilities where
  codecs : List RtpCodecCapability := []
  headerExtensions : List RtpHeaderExtension := []
  fecMechanisms : List String := []
deriving DecidableEq

/-- Modelled from the spec: finalized router capabilities. -/
structure RtpCapabilitiesFinalized where
  codecs : List RtpCodecCapabilityFinalized := []
  headerExtensions : List RtpHeaderExtension := []
  fecMechanisms : List String := []
deriving DecidableEq

/-- `RtpMappingCodec` (ortc.rs). -/
structure RtpMappingCodec where
  payloadType : Nat
  mappedPayloadType : Nat
deriving DecidableEq

/-- `RtpMappingEncoding` (ortc.rs). -/
structure RtpMappingEncoding where
  ssrc : Option Nat := none
  rid : Option String := none
  scalabilityMode : Option String := none
  mappedSsrc : Nat
deriving DecidableEq

/-- `RtpMapping` (ortc.rs). -/
structure RtpMapping where
  codecs : List RtpMappingCodec := []
  encodings : List RtpMappingEncoding := []
deriving DecidableEq

/-- `RtpParametersError` (ortc.rs). -/
inductive RtpParametersError
  | InvalidAptParameter (s : String)
deriving DecidableEq

/-- `RtpCapabilitiesError` (ortc.rs). -/
inductive RtpCapabilitiesError
  | UnsupportedCodec (mimeType : MimeType)
  | CannotAllocate
  | InvalidAptParameter (s : String)
  | DuplicatedPreferredPayloadType (pt : Nat)
deriving DecidableEq

/-- `RtpParametersMappingError` (ortc.rs). -/
inductive RtpParametersMappingError
  | UnsupportedCodec (mimeType : MimeType) (payloadType : Nat)
  | UnsupportedRTXCodec (preferredPayloadType : Nat)
  | MissingMediaCodecForRTX (payloadType : Nat)
deriving DecidableEq

/-- `ConsumerRtpParametersError` (ortc.rs). -/
inductive ConsumerRtpParametersError
  | InvalidCapabilities (e : RtpCapabilitiesError)
  | NoCompatibleMediaCodecs
deriving DecidableEq

/-! ### The derived codec order

`get_producer_rtp_parameters_mapping` keys a `BTreeMap` by
`RtpCodecParameters` values, so the map iterates in the codec type's derived
`Ord`: variant (audio before video), then mime type, payload type, clock
rate, channels, parameters and feedback, lexicographically in declaration
order.  We realise this order by an injective key encoding. -/

/-- Declaration index of an audio mime type. -/
def mimeAudioIdx : MimeTypeAudio → Nat
  | .Opus => 0
  | .PCMU => 1
  | .PCMA => 2
  | .ISAC => 3
  | .G722 => 4
  | .CN => 5
  | .TelephoneEvent => 6

/-- Declaration index of a video mime type. -/
def mimeVideoIdx : MimeTypeVideo → Nat
  | .VP8 => 0
  | .VP9 => 1
  | .H264 => 2
  | .H265 => 3
  | .RTX => 4

/-- Declaration index of a feedback variant. -/
def fbIdx : RtcpFeedback → Nat
  | .Nack => 0
  | .NackPli => 1
  | .CcmFir => 2
  | .GoogRemb => 3
  | .TransportCC => 4
  | .Unsupported => 5

theorem mimeAudioIdx_inj : Function.Injective mimeAudioIdx := by
  intro a b
  cases a <;> cases b <;> decide

theorem mimeVideoIdx_inj : Function.Injective mimeVideoIdx := by
  intro a b
  cases a <;> cases b <;> decide

theorem fbIdx_inj : Function.Injective fbIdx := by
  intro a b
  cases a <;> cases b <;> decide

/-- Comparator on parameter values: numbers sort before strings (variant
declaration order), then by value. -/
def pvCmp : ParamValue → ParamValue → Ordering
  | .num a, .num b => oCmp a b
  | .num _, .str _ => .lt
  | .str _, .num _ => .gt
  | .str a, .str b => oCmp a b

theorem lawCmp_pvCmp : LawCmp pvCmp := by
  constructor
  · intro a b
    cases a <;> cases b <;> simp [pvCmp, oCmp_eq_eq]
  · intro a b
    cases a <;> cases b
    · exact lawCmp_oCmp.swap_eq _ _
    · rfl
    · rfl
    · exact lawCmp_oCmp.swap_eq _ _
  · intro a b d hab hbd
    cases a <;> cases b <;> cases d <;> simp_all [pvCmp, oCmp_eq_lt]
    · exact lt_trans hab hbd
    · exact lt_trans hab hbd

/-- Comparator on parameter maps (derived `Ord` of the parameter container:
lexicographic in entry order). -/
def paramsCmp : Parameters → Parameters → Ordering :=
  listCmp (prodCmp oCmp pvCmp)

theorem lawCmp_paramsCmp : LawCmp paramsCmp :=
  lawCmp_listCmp (lawCmp_prodCmp lawCmp_oCmp lawCmp_pvCmp)

/-- Comparator on feedback lists. -/
def fbCmp : List RtcpFeedback → List RtcpFeedback → Ordering :=
  listCmp (mapCmp fbIdx oCmp)

theorem lawCmp_fbCmp : LawCmp fbCmp :=
  lawCmp_listCmp (lawCmp_mapCmp lawCmp_oCmp fbIdx_inj)

/-- Key encoding of a codec: variant index, mime index, payload type, clock
rate, channels (0 for video), parameters, feedback — the derived `Ord`'s
field order. -/
def codecKey (c : RtpCodecParameters) :
    Nat × Nat × Nat × Nat × Nat × Parameters × List RtcpFeedback :=
  match c with
  | .audio m pt cr ch ps fb => (0, mimeAudioIdx m, pt, cr, ch, ps, fb)
  | .video m pt cr ps fb => (1, mimeVideoIdx m, pt, cr, 0, ps, fb)

theorem codecKey_injective : Function.Injective codecKey := by
  intro a b h
  cases a <;> cases b <;> simp [codecKey, Prod.mk.injEq] at h
  · obtain ⟨h1, h2, h3, h4, h5, h6⟩ := h
    subst h2; subst h3; subst h4; subst h5; subst h6
    rw [mimeAudioIdx_inj h1]
  · obtain ⟨h1, h2, h3, h4, h5⟩ := h
    subst h2; subst h3; subst h4; subst h5
    rw [mimeVideoIdx_inj h1]

/-- The derived `Ord` on producer codec values, as used by the
`codec_to_cap_codec` `BTreeMap`. -/
def codecCmp : RtpCodecParameters → RtpCodecParameters → Ordering :=
  mapCmp codecKey
    (prodCmp oCmp (prodCmp oCmp (prodCmp oCmp (prodCmp oCmp
      (prodCmp oCmp (prodCmp paramsCmp fbCmp))))))

theorem lawCmp_codecCmp : LawCmp codecCmp :=
  lawCmp_mapCmp
    (lawCmp_prodCmp lawCmp_oCmp (lawCmp_prodCmp lawCmp_oCmp
      (lawCmp_prodCmp lawCmp_oCmp (lawCmp_prodCmp lawCmp_oCmp
        (lawCmp_prodCmp lawCmp_oCmp
          (lawCmp_prodCmp lawCmp_paramsCmp lawCmp_fbCmp))))))
    codecKey_injective

/-! ### Ordered-map model of `BTreeMap`

A `BTreeMap` is modelled as a key-sorted association list: insertion keeps
the list sorted (replacing on an equal key), iteration is the list itself,
and lookup scans for the key. -/

/-- `BTreeMap::insert` on a key-sorted association list. -/
def omInsert {α β : Type _} (c : α → α → Ordering) (k : α) (v : β) :
    List (α × β) → List (α × β)
  | [] => [(k, v)]
  | (k2, v2) :: t =>
    match c k k2 with
    | .lt => (k, v) :: (k2, v2) :: t
    | .eq => (k, v) :: t
    | .gt => (k2, v2) :: omInsert c k v t

/-- `BTreeMap::get`. -/
def omFind? {α β : Type _} (c : α → α → Ordering) (k : α)
    (m : List (α × β)) : Option β :=
  (m.find? (fun p => decide (c k p.1 = .eq))).map (·.2)

theorem omInsert_keys_subset {α β : Type _} {c : α → α → Ordering} {k : α}
    {v : β} {m : List (α × β)} {x : α}
    (hx : x ∈ (omInsert c k v m).map Prod.fst) :
    x = k ∨ x ∈ m.map Prod.fst := by
  induction m with
  | nil => simpa [omInsert] using hx
  | cons p t ih =>
    obtain ⟨k2, v2⟩ := p
    rcases h : c k k2 with _ | _ | _ <;>
      simp only [omInsert, h, List.map_cons, List.mem_cons] at hx ⊢
    · tauto
    · tauto
    · rcases hx with hx | hx
      · tauto
      · rcases ih hx with hx | hx <;> tauto

theorem omInsert_self_mem_keys {α β : Type _} {c : α → α → Ordering} {k : α}
    {v : β} (m : List (α × β)) :
    k ∈ (omInsert c k v m).map Prod.fst := by
  induction m with
  | nil => simp [omInsert]
  | cons p t ih =>
    obtain ⟨k2, v2⟩ := p
    rcases h : c k k2 with _ | _ | _ <;>
      simp only [omInsert, h, List.map_cons, List.mem_cons]
    · exact Or.inl trivial
    · exact Or.inl trivial
    · exact Or.inr ih

theorem omInsert_keys_mono {α β : Type _} {c : α → α → Ordering}
    (hc : LawCmp c) {k : α} {v : β} {m : List (α × β)} {x : α}
    (hx : x ∈ m.map Prod.fst) :
    x ∈ (omInsert c k v m).map Prod.fst := by
  induction m with
  | nil => simp at hx
  | cons p t ih =>
    obtain ⟨k2, v2⟩ := p
    simp only [List.map_cons, List.mem_cons] at hx
    rcases h : c k k2 with _ | _ | _ <;>
      simp only [omInsert, h, List.map_cons, List.mem_cons]
    · tauto
    · rcases hx with hx | hx
      · exact Or.inl (by rw [hx, ← (hc.eq_iff k k2).mp h])
      · exact Or.inr hx
    · rcases hx with hx | hx
      · exact Or.inl hx
      · exact Or.inr (ih hx)

theorem omInsert_values_subset {α β : Type _} {c : α → α → Ordering} {k : α}
    {v : β} {m : List (α × β)} {w : β}
    (hw : w ∈ (omInsert c k v m).map Prod.snd) :
    w = v ∨ w ∈ m.map Prod.snd := by
  induction m with
  | nil => simpa [omInsert] using hw
  | cons p t ih =>
    obtain ⟨k2, v2⟩ := p
    rcases h : c k k2 with _ | _ | _ <;>
      simp only [omInsert, h, List.map_cons, List.mem_cons] at hw ⊢
    · tauto
    · tauto
    · rcases hw with hw | hw
      · tauto
      · rcases ih hw with hw | hw <;> tauto

/-- Keys of a map. -/
def omKeysSorted {α β : Type _} (c : α → α → Ordering)
    (m : List (α × β)) : Prop :=
  m.Pairwise (fun p q => c p.1 q.1 = .lt)

theorem omInsert_sorted {α β : Type _} {c : α → α → Ordering}
    (hc : LawCmp c) {k : α} {v : β} {m : List (α × β)}
    (hm : omKeysSorted c m) : omKeysSorted c (omInsert c k v m) := by
  induction m with
  | nil => simp [omInsert, omKeysSorted]
  | cons p t ih =>
    obtain ⟨k2, v2⟩ := p
    rw [omKeysSorted, List.pairwise_cons] at hm
    obtain ⟨hb, ht⟩ := hm
    rcases h : c k k2 with _ | _ | _ <;> simp only [omInsert, h]
    · rw [omKeysSorted, List.pairwise_cons]
      refine ⟨?_, List.pairwise_cons.mpr ⟨hb, ht⟩⟩
      intro q hq
      rcases List.mem_cons.mp hq with hq | hq
      · rw [hq]; exact h
      · exact hc.lt_trans h (hb q hq)
    · rw [omKeysSorted, List.pairwise_cons]
      refine ⟨?_, ht⟩
      intro q hq
      rw [(hc.eq_iff k k2).mp h]
      exact hb q hq
    · rw [omKeysSorted, List.pairwise_cons]
      refine ⟨?_, ih ht⟩
      intro q hq
      have hq2 := omInsert_keys_subset (c := c) (k := k) (v := v) (m := t)
        (x := q.1) (List.mem_map_of_mem Prod.fst hq)
      rcases hq2 with hq2 | hq2
      · rw [hq2]; exact hc.gt_to_lt h
      · rcases List.mem_map.mp hq2 with ⟨q2, hq2m, hq2e⟩
        rw [← hq2e]
        exact hb q2 hq2m

theorem find?_cons_ite {α : Type _} (f : α → Bool) (a : α) (l : List α) :
    List.find? f (a :: l) = if f a then some a else List.find? f l := by
  by_cases h : f a <;> simp [List.find?, h]

theorem omFind?_isSome_of_mem_keys {α β : Type _} {c : α → α → Ordering}
    (hc : LawCmp c) {k : α} {m : List (α × β)}
    (hk : k ∈ m.map Prod.fst) : (omFind? c k m).isSome := by
  induction m with
  | nil => simp at hk
  | cons p t ih =>
    simp only [List.map_cons, List.mem_cons] at hk
    by_cases h : c k p.1 = .eq
    · simp [omFind?, find?_cons_ite, h]
    · have hk2 : k ∈ t.map Prod.fst := by
        rcases hk with hk | hk
        · exact absurd ((hc.eq_iff k p.1).mpr hk) h
        · exact hk
      have hih := ih hk2
      simp only [omFind?] at hih ⊢
      rw [find?_cons_ite, if_neg (by simp [h])]
      exact hih

/-! ### H.264 profile-level-id helper

Modelled from the spec (section 6): the helper crate is not among the
available sources.  The spec exposes two operations:
`is_same_profile(a?, b?) -> (norm_a, norm_b)?` (the two ids must represent
the same profile under RFC 6184, after defaulting absent ids) and
`generate_profile_level_id_for_answer(local, local_asym, remote,
remote_asym) -> Result<id>` (select the answer id using the
level-asymmetry-allowed flags of both sides). -/

/-- Hex digit test for profile-level-id strings. -/
def isHexDigitChar (c : Char) : Bool :=
  c.isDigit || (decide ('a' ≤ c) && decide (c ≤ 'f')) ||
    (decide ('A' ≤ c) && decide (c ≤ 'F'))

/-- Value of a hex digit. -/
def hexDigitVal (c : Char) : Nat :=
  if c.isDigit then c.toNat - 48
  else if decide ('a' ≤ c) && decide (c ≤ 'f') then c.toNat - 87
  else if decide ('A' ≤ c) && decide (c ≤ 'F') then c.toNat - 55
  else 0

/-- Modelled from the spec: a profile-level-id is a six-hex-digit string. -/
def h264ValidId (s : String) : Bool :=
  s.length == 6 && s.data.all isHexDigitChar

/-- Modelled from the spec: default profile-level-id assumed when a side
omits the parameter (constrained baseline, level 3.1). -/
def h264DefaultId : String := "42e01f"

/-- The profile part of a profile-level-id: profile_idc plus profile_iop,
i.e. the first four hex digits; under RFC 6184 these determine the
profile. -/
def h264ProfilePart (s : String) : String := s.take 4

/-- The level part of a profile-level-id, the last two hex digits, as a
number. -/
def h264LevelValue (s : String) : Nat :=
  (s.drop 4).foldl (fun acc c => acc * 16 + hexDigitVal c) 0

/-- Modelled from the spec: `is_same_profile(a?, b?)` — default absent ids,
require both to parse and to carry the same RFC 6184 profile, and return the
normalized pair. -/
def h264IsSameProfile (a b : Option String) : Option (String × String) :=
  let na := a.getD h264DefaultId
  let nb := b.getD h264DefaultId
  if h264ValidId na && h264ValidId nb &&
      (h264ProfilePart na == h264ProfilePart nb) then
    some (na, nb)
  else
    none

/-- Modelled from the spec: `generate_profile_level_id_for_answer` — given
two ids with the same profile, answer with the first side's id when level
asymmetry is allowed by both sides, else with the id carrying the minimum
level. -/
def h264GenerateProfileLevelIdForAnswer (a : String) (asymA : Bool)
    (b : String) (asymB : Bool) : Option String :=
  if asymA && asymB then some a
  else if h264LevelValue a ≤ h264LevelValue b then some a
  else some (h264ProfilePart a ++ b.drop 4)

/-! ### Codec matcher (ortc.rs, `match_codecs`) -/

/-- `CodecToMatch` (ortc.rs): the flat view a codec is normalized into for
matching. -/
structure CodecToMatch where
  channels : Option Nat
  clockRate : Nat
  mimeType : MimeType
  parameters : Parameters
deriving DecidableEq

/-- `From<&RtpCodecCapability> for CodecToMatch` (ortc.rs). -/
def RtpCodecCapability.toMatch : RtpCodecCapability → CodecToMatch
  | .audio m _ cr ch ps _ => ⟨some ch, cr, .audio m, ps⟩
  | .video m _ cr ps _ => ⟨none, cr, .video m, ps⟩

/-- `From<&RtpCodecCapabilityFinalized> for CodecToMatch` (ortc.rs). -/
def RtpCodecCapabilityFinalized.toMatch :
    RtpCodecCapabilityFinalized → CodecToMatch
  | .audio m _ cr ch ps _ => ⟨some ch, cr, .audio m, ps⟩
  | .video m _ cr ps _ => ⟨none, cr, .video m, ps⟩

/-- `From<&RtpCodecParameters> for CodecToMatch` (ortc.rs). -/
def RtpCodecParameters.toMatch : RtpCodecParameters → CodecToMatch
  | .audio m _ cr ch ps _ => ⟨some ch, cr, .audio m, ps⟩
  | .video m _ cr ps _ => ⟨none, cr, .video m, ps⟩

/-- The string-valued `profile-level-id` of a codec, if any (ortc.rs:
`parameters.get("profile-level-id")` filtered to strings). -/
def profileLevelIdOf (ps : Parameters) : Option String :=
  (paramsGet ps "profile-level-id").bind fun p =>
    match p with
    | .str s => some s
    | .num _ => none

/-- The `level-asymmetry-allowed` flag of a codec (ortc.rs: present and equal
to `Number(1)`). -/
def levelAsymmetryAllowedOf (ps : Parameters) : Bool :=
  ((paramsGet ps "level-asymmetry-allowed").map
    (fun p => p == ParamValue.num 1)).getD false

/-- The per-codec special checks of `match_codecs` (ortc.rs, lines
966–1058), dispatched on the (shared) mime type, over the two codecs'
parameter maps. -/
def matchSpecial (mimeType : MimeType) (psA psB : Parameters)
    (strict : Bool) : Option (Option String) :=
  match mimeType with
  | .video .H264 =>
    if (paramsGet psA "packetization-mode").getD (.num 0) ≠
        (paramsGet psB "packetization-mode").getD (.num 0)
    then none
    else if strict then
      match h264IsSameProfile (profileLevelIdOf psA)
          (profileLevelIdOf psB) with
      | none => none
      | some (pa, pb) =>
        match h264GenerateProfileLevelIdForAnswer pa
            (levelAsymmetryAllowedOf psA) pb
            (levelAsymmetryAllowedOf psB) with
        | some sel => some (some sel)
        | none => none
    else some none
  | .video .VP9 =>
    if strict then
      if (paramsGet psA "profile-id").getD (.num 0) ≠
          (paramsGet psB "profile-id").getD (.num 0)
      then none
      else some none
    else some none
  | _ => some none

/-- `match_codecs` (ortc.rs, lines 950–1061).  `some aug` is Rust's
`Ok(aug)`; `none` is `Err(())`. -/
def match_codecs (codec_a codec_b : CodecToMatch) (strict : Bool) :
    Option (Option String) :=
  if codec_a.mimeType ≠ codec_b.mimeType then none
  else if codec_a.channels ≠ codec_b.channels then none
  else if codec_a.clockRate ≠ codec_b.clockRate then none
  else
    matchSpecial codec_a.mimeType codec_a.parameters codec_b.parameters
      strict

/-! ### Supported RTP capabilities table

Modelled from the spec: the compile-time table listing every codec the SFU
can handle with its stock feedback messages and header extensions
(`supported_rtp_capabilities.rs` is not among the available sources; the
entries follow the spec's codec list, its scenario 1 and the repository's
tests: fixed preferred payload types are the static RFC assignments below
96, H.264 appears once per packetization-mode). -/
def supportedRtpCapabilities : RtpCapabilities :=
  { codecs := [
      .audio .Opus none 48000 2 [] [.TransportCC],
      .audio .PCMU (some 0) 8000 1 [] [.TransportCC],
      .audio .PCMA (some 8) 8000 1 [] [.TransportCC],
      .audio .ISAC none 16000 1 [] [.TransportCC],
      .audio .G722 (some 9) 8000 1 [] [.TransportCC],
      .audio .CN (some 13) 8000 1 [] [],
      .audio .TelephoneEvent none 8000 1 [] [],
      .video .VP8 none 90000 []
        [.Nack, .NackPli, .CcmFir, .GoogRemb, .TransportCC],
      .video .VP9 none 90000 []
        [.Nack, .NackPli, .CcmFir, .GoogRemb, .TransportCC],
      .video .H264 none 90000
        [("packetization-mode", .num 1), ("level-asymmetry-allowed", .num 1)]
        [.Nack, .NackPli, .CcmFir, .GoogRemb, .TransportCC],
      .video .H264 none 90000
        [("packetization-mode", .num 0), ("level-asymmetry-allowed", .num 1)]
        [.Nack, .NackPli, .CcmFir, .GoogRemb, .TransportCC],
      .video .H265 none 90000
        [("packetization-mode", .num 1), ("level-asymmetry-allowed", .num 1)]
        [.Nack, .NackPli, .CcmFir, .GoogRemb, .TransportCC],
      .video .H265 none 90000
        [("packetization-mode", .num 0), ("level-asymmetry-allowed", .num 1)]
        [.Nack, .NackPli, .CcmFir, .GoogRemb, .TransportCC]],
    headerExtensions := [
      ⟨some .Audio, .MID, 1, false, .SendRecv⟩,
      ⟨some .Video, .MID, 1, false, .SendRecv⟩,
      ⟨some .Video, .RtpStreamId, 2, false, .RecvOnly⟩,
      ⟨some .Video, .RepairedRtpStreamId, 3, false, .RecvOnly⟩,
      ⟨some .Audio, .AbsSendTime, 4, false, .SendRecv⟩,
      ⟨some .Video, .AbsSendTime, 4, false, .SendRecv⟩,
      ⟨some .Video, .TransportWideCCDraft01, 5, false, .SendRecv⟩,
      ⟨some .Video, .FrameMarkingDraft07, 7, false, .SendRecv⟩,
      ⟨some .Audio, .AudioLevel, 10, false, .SendRecv⟩,
      ⟨some .Video, .VideoOrientation, 11, false, .SendRecv⟩,
      ⟨some .Video, .TimeOffset, 12, false, .SendRecv⟩],
    fecMechanisms := [] }

/-! ### Validators (ortc.rs) -/

/-- First string-valued `apt` parameter, if any (the loop body shared by the
validators). -/
def findInvalidApt : Parameters → Option String
  | [] => none
  | (k, v) :: t =>
    if k = "apt" then
      match v with
      | .num _ => findInvalidApt t
      | .str s => some s
    else
      findInvalidApt t

/-- `validate_rtp_codec_parameters` (ortc.rs). -/
def validate_rtp_codec_parameters (codec : RtpCodecParameters) :
    Except RtpParametersError Unit :=
  match findInvalidApt codec.parameters with
  | some s => .error (.InvalidAptParameter s)
  | none => .ok ()

/-- `validate_rtp_parameters` (ortc.rs). -/
def validate_rtp_parameters (p : RtpParameters) :
    Except RtpParametersError Unit :=
  p.codecs.foldl
    (fun acc codec => acc.bind fun _ => validate_rtp_codec_parameters codec)
    (.ok ())

/-- `validate_rtp_codec_capability` (ortc.rs). -/
def validate_rtp_codec_capability (codec : RtpCodecCapability) :
    Except RtpCapabilitiesError Unit :=
  match findInvalidApt codec.parameters with
  | some s => .error (.InvalidAptParameter s)
  | none => .ok ()

/-- The codec loop of `validate_rtp_capabilities` (ortc.rs): first error
wins. -/
def validateCapCodecs : List RtpCodecCapability →
    Except RtpCapabilitiesError Unit
  | [] => .ok ()
  | c :: t =>
    match validate_rtp_codec_capability c with
    | .error e => .error e
    | .ok _ => validateCapCodecs t

/-- `validate_rtp_capabilities` (ortc.rs). -/
def validate_rtp_capabilities (caps : RtpCapabilities) :
    Except RtpCapabilitiesError Unit :=
  validateCapCodecs caps.codecs

/-! ### Capability finalizer (ortc.rs, `generate_router_rtp_capabilities`) -/

/-- `DYNAMIC_PAYLOAD_TYPES` (ortc.rs, line 18). -/
def dynamicPayloadTypes : List Nat :=
  [100, 101, 102, 103, 104, 105, 106, 107, 108, 109, 110, 111, 112, 113,
   114, 115, 116, 117, 118, 119, 120, 121, 122, 123, 124, 125, 126, 127,
   96, 97, 98, 99]

/-- Whether a finalized codec is a video codec (Rust:
`matches!(codec_finalized, RtpCodecCapabilityFinalized::Video {..})`). -/
def RtpCodecCapabilityFinalized.isVideo : RtpCodecCapabilityFinalized → Bool
  | .video _ _ _ _ _ => true
  | .audio _ _ _ _ _ _ => false

/-- Build the finalized codec from the matched supported entry: mime,
clock rate, channels and feedback from the supported entry, parameters from
the supported entry extended by the media codec's parameters (ortc.rs,
lines 237–276). -/
def finalizeCodec (codec : RtpCodecCapability) (preferredPayloadType : Nat)
    (mediaParams : Parameters) : RtpCodecCapabilityFinalized :=
  match codec with
  | .audio m _ cr ch ps fb =>
    .audio m preferredPayloadType cr ch (paramsExtend ps mediaParams) fb
  | .video m _ cr ps fb =>
    .video m preferredPayloadType cr (paramsExtend ps mediaParams) fb

/-- The preferred-payload-type determination of the finalizer (ortc.rs,
lines 201–226): adopt the media codec's preferred type (removing it from
the dynamic pool), else the supported entry's fixed type, else pop the
pool's head. -/
def pickPreferredPayloadType (mediaCodec codec : RtpCodecCapability)
    (pool : List Nat) : Except RtpCapabilitiesError (Nat × List Nat) :=
  match mediaCodec.preferredPayloadType with
  | some pt => .ok (pt, pool.filter (fun x => x ≠ pt))
  | none =>
    match codec.preferredPayloadType with
    | some pt => .ok (pt, pool)
    | none =>
      match pool with
      | [] => .error .CannotAllocate
      | pt :: poolRest => .ok (pt, poolRest)

/-- The per-codec loop of `generate_router_rtp_capabilities` (ortc.rs,
lines 184–304), carrying the dynamic payload-type pool and the accumulated
finalized codec list. -/
def generateLoop (supported : RtpCapabilities) :
    List RtpCodecCapability → List Nat → List RtpCodecCapabilityFinalized →
    Except RtpCapabilitiesError (List RtpCodecCapabilityFinalized)
  | [], _, acc => .ok acc
  | mediaCodec :: rest, pool, acc =>
    match validate_rtp_codec_capability mediaCodec with
    | .error e => .error e
    | .ok _ =>
      match supported.codecs.find? (fun supportedCodec =>
          (match_codecs mediaCodec.toMatch supportedCodec.toMatch
            false).isSome) with
      | none => .error (.UnsupportedCodec mediaCodec.mimeType)
      | some codec =>
        match pickPreferredPayloadType mediaCodec codec pool with
        | .error e => .error e
        | .ok (preferredPayloadType, pool1) =>
          if acc.any
              (fun c => c.preferredPayloadType == preferredPayloadType) then
            .error (.DuplicatedPreferredPayloadType preferredPayloadType)
          else
            let codecFinalized :=
              finalizeCodec codec preferredPayloadType mediaCodec.parameters
            if codecFinalized.isVideo then
              match pool1 with
              | [] => .error .CannotAllocate
              | rtxPt :: pool2 =>
                let rtxCodec : RtpCodecCapabilityFinalized :=
                  .video .RTX rtxPt codecFinalized.clockRate
                    [("apt", .num codecFinalized.preferredPayloadType)] []
                generateLoop supported rest pool2
                  (acc ++ [codecFinalized, rtxCodec])
            else
              generateLoop supported rest pool1 (acc ++ [codecFinalized])

/-- `generate_router_rtp_capabilities` (ortc.rs, lines 170–307). -/
def generate_router_rtp_capabilities (mediaCodecs : List RtpCodecCapability) :
    Except RtpCapabilitiesError RtpCapabilitiesFinalized :=
  match validate_rtp_capabilities supportedRtpCapabilities with
  | .error e => .error e
  | .ok _ =>
    match generateLoop supportedRtpCapabilities mediaCodecs
        dynamicPayloadTypes [] with
    | .error e => .error e
    | .ok codecs =>
      .ok ⟨codecs, supportedRtpCapabilities.headerExtensions, []⟩

/-! ### Producer mapping builder (ortc.rs,
`get_producer_rtp_parameters_mapping`)

The Rust function builds a
`BTreeMap<&RtpCodecParameters, Cow<RtpCodecCapabilityFinalized>>` in two
passes (media codecs, then RTX codecs) and then emits `mapping.codecs` by
iterating that map — i.e. in ascending codec-key order.  The borrow-and-panic
structure (`.unwrap()` on the associated media codec lookup) is modelled by
an outer `Option`: `none` is a panic, `some (error e)` a returned error. -/

/-- The codec-to-capability association map. -/
abbrev CodecCapMap := List (RtpCodecParameters × RtpCodecCapabilityFinalized)

/-- First pass (ortc.rs, lines 321–354): match non-RTX producer codecs
against the finalized capabilities under `strict = true`, patching
`profile-level-id` into a cloned capability when the matcher returns an
augmentation. -/
def collectMediaCodecs (capCodecs : List RtpCodecCapabilityFinalized) :
    List RtpCodecParameters → CodecCapMap →
    Except RtpParametersMappingError CodecCapMap
  | [], m => .ok m
  | codec :: rest, m =>
    if codec.isRtx then
      collectMediaCodecs capCodecs rest m
    else
      match capCodecs.findSome? (fun capCodec =>
          (match_codecs codec.toMatch capCodec.toMatch true).map
            (fun profileLevelId =>
              match profileLevelId with
              | some plid =>
                capCodec.insertParameter "profile-level-id" (.str plid)
              | none => capCodec)) with
      | some matched =>
        collectMediaCodecs capCodecs rest (omInsert codecCmp codec matched m)
      | none => .error (.UnsupportedCodec codec.mimeType codec.payloadType)

/-- Search for the associated media codec of an RTX codec: the first codec
in the list whose payload type equals the RTX codec's `apt` parameter
(ortc.rs, lines 363–373). -/
def findAssociatedMediaCodec (codecs : List RtpCodecParameters)
    (rtxCodec : RtpCodecParameters) : Option RtpCodecParameters :=
  codecs.find? (fun mediaCodec =>
    match paramsGet rtxCodec.parameters "apt" with
    | some (.num apt) => mediaCodec.payloadType == apt
    | _ => false)

/-- Search for a capability RTX codec whose `apt` equals the given preferred
payload type (ortc.rs, lines 380–392). -/
def findCapRtxCodec (capCodecs : List RtpCodecCapabilityFinalized)
    (preferredPayloadType : Nat) : Option RtpCodecCapabilityFinalized :=
  capCodecs.find? (fun capCodec =>
    if !capCodec.isRtx then false
    else
      match paramsGet capCodec.parameters "apt" with
      | some (.num apt) => preferredPayloadType == apt
      | _ => false)

/-- Second pass (ortc.rs, lines 357–411): associate RTX producer codecs;
`none` models the `.unwrap()` panic when the associated media codec is not a
key of the map. -/
def collectRtxCodecs (allCodecs : List RtpCodecParameters)
    (capCodecs : List RtpCodecCapabilityFinalized) :
    List RtpCodecParameters → CodecCapMap →
    Option (Except RtpParametersMappingError CodecCapMap)
  | [], m => some (.ok m)
  | codec :: rest, m =>
    if !codec.isRtx then
      collectRtxCodecs allCodecs capCodecs rest m
    else
      match findAssociatedMediaCodec allCodecs codec with
      | some associated =>
        match omFind? codecCmp associated m with
        | none => none
        | some capMediaCodec =>
          match findCapRtxCodec capCodecs
              capMediaCodec.preferredPayloadType with
          | some capRtx =>
            collectRtxCodecs allCodecs capCodecs rest
              (omInsert codecCmp codec capRtx m)
          | none =>
            some (.error
              (.UnsupportedRTXCodec capMediaCodec.preferredPayloadType))
      | none =>
        some (.error (.MissingMediaCodecForRTX codec.payloadType))

/-- The complete `codec_to_cap_codec` map of
`get_producer_rtp_parameters_mapping`. -/
def buildCodecToCapMap (p : RtpParameters) (caps : RtpCapabilitiesFinalized) :
    Option (Except RtpParametersMappingError CodecCapMap) :=
  match collectMediaCodecs caps.codecs p.codecs [] with
  | .error e => some (.error e)
  | .ok m => collectRtxCodecs p.codecs caps.codecs p.codecs m

/-- `get_producer_rtp_parameters_mapping` (ortc.rs, lines 311–436).
`baseSsrc` stands for the one random draw (`generate_ssrc()`); encoding `i`
is mapped to `baseSsrc + i`. -/
def get_producer_rtp_parameters_mapping (p : RtpParameters)
    (caps : RtpCapabilitiesFinalized) (baseSsrc : Nat) :
    Option (Except RtpParametersMappingError RtpMapping) :=
  match buildCodecToCapMap p caps with
  | none => none
  | some (.error e) => some (.error e)
  | some (.ok m) =>
    some (.ok
      { codecs := m.map (fun q =>
          ⟨q.1.payloadType, q.2.preferredPayloadType⟩),
        encodings := p.encodings.enum.map (fun q =>
          ⟨q.2.ssrc, q.2.rid, q.2.scalabilityMode, baseSsrc + q.1⟩) })

/-! ### Consumable builder (ortc.rs, `get_consumable_rtp_parameters`)

The two `.unwrap()`s inside the codec loop are modelled by `Option`: `none`
is a panic. -/

/-- The codec loop of `get_consumable_rtp_parameters` (ortc.rs, lines
448–553): for every non-RTX producer codec, look up its mapped payload type
and the capability codec carrying it, emit the consumable codec (capability
data, producer parameters), and append the capability RTX codec whose `apt`
points at it, when present.  The source compares `*apt as u8` (the u32
parameter truncated to u8) against the payload type; the truncation is
`apt % 256`. -/
def consumableCodecsLoop (caps : RtpCapabilitiesFinalized)
    (rtpMapping : RtpMapping) :
    List RtpCodecParameters → Option (List RtpCodecParameters)
  | [] => some []
  | codec :: rest =>
    if codec.isRtx then
      consumableCodecsLoop caps rtpMapping rest
    else
      match (rtpMapping.codecs.find? (fun entry =>
          entry.payloadType == codec.payloadType)).map
          (·.mappedPayloadType) with
      | none => none
      | some consumableCodecPt =>
        match caps.codecs.find? (fun capCodec =>
            capCodec.preferredPayloadType == consumableCodecPt) with
        | none => none
        | some capCodec =>
          let consumableCodec : RtpCodecParameters :=
            match capCodec with
            | .audio m pt cr ch _ fb => .audio m pt cr ch codec.parameters fb
            | .video m pt cr _ fb => .video m pt cr codec.parameters fb
          let capRtx := caps.codecs.find? (fun capRtxCodec =>
            if !capRtxCodec.isRtx then false
            else
              match paramsGet capRtxCodec.parameters "apt" with
              | some (.num apt) => apt % 256 == consumableCodec.payloadType
              | _ => false)
          match consumableCodecsLoop caps rtpMapping rest with
          | none => none
          | some tail =>
            match capRtx with
            | some capRtxCodec =>
              let consumableRtxCodec : RtpCodecParameters :=
                match capRtxCodec with
                | .audio m pt cr ch ps fb => .audio m pt cr ch ps fb
                | .video m pt cr ps fb => .video m pt cr ps fb
              some (consumableCodec :: consumableRtxCodec :: tail)
            | none => some (consumableCodec :: tail)

/-- The header-extension selection of the consumable builder (ortc.rs,
lines 555–582): keep extensions of the stream's kind (kind-less ones are
skipped) whose direction is SendRecv or SendOnly. -/
def consumableHeaderExtensions (kind : MediaKind)
    (exts : List RtpHeaderExtension) : List RtpHeaderExtensionParameters :=
  (exts.filter (fun capExt =>
    (match capExt.kind with
     | some k => k == kind
     | none => false) &&
    (capExt.direction == .SendRecv || capExt.direction == .SendOnly))).map
    (fun capExt => ⟨capExt.uri, capExt.preferredId, capExt.preferredEncrypt⟩)

/-- The encoding loop of the consumable builder (ortc.rs, lines 584–600):
copy each producer encoding, clear `rid`, `rtx` and `codec_payload_type`,
and set the mapped SSRC. -/
def consumableEncodings (pEncodings : List RtpEncodingParameters)
    (mEncodings : List RtpMappingEncoding) : List RtpEncodingParameters :=
  (pEncodings.zip mEncodings).map (fun q =>
    { q.1 with
      rid := none
      rtx := none
      codecPayloadType := none
      ssrc := some q.2.mappedSsrc })

/-- `get_consumable_rtp_parameters` (ortc.rs, lines 440–609); `none` models
a panic of one of the two internal `.unwrap()`s. -/
def get_consumable_rtp_parameters (kind : MediaKind) (params : RtpParameters)
    (caps : RtpCapabilitiesFinalized) (rtpMapping : RtpMapping) :
    Option RtpParameters :=
  match consumableCodecsLoop caps rtpMapping params.codecs with
  | none => none
  | some codecs =>
    some
      { mid := none
        codecs := codecs
        headerExtensions :=
          consumableHeaderExtensions kind caps.headerExtensions
        encodings := consumableEncodings params.encodings rtpMapping.encodings
        rtcp := ⟨params.rtcp.cname, true, some true⟩ }

/-! ### Scalability mode

Modelled from the spec: `scalability_modes.rs` is not among the available
sources.  A scalability mode is a compact string of the shape `L<s>T<t>` or
`S<s>T<t>`; parsing failure or an absent mode yields the default, whose
temporal-layer count is zero. -/

/-- Modelled from the spec: spatial and temporal layer counts. -/
structure ScalabilityMode where
  spatialLayers : Nat
  temporalLayers : Nat
deriving DecidableEq

/-- Modelled from the spec: the default mode used when parsing fails or the
mode is absent has zero temporal layers. -/
def ScalabilityMode.defaultMode : ScalabilityMode := ⟨0, 0⟩

/-- Decimal digits to a number. -/
def digitsToNat (ds : List Char) : Nat :=
  ds.foldl (fun acc c => acc * 10 + (c.toNat - 48)) 0

/-- Modelled from the spec: parse `L<s>T<t>` / `S<s>T<t>`. -/
def parseScalabilityMode (s : String) : Option ScalabilityMode :=
  match s.data with
  | [] => none
  | c :: rest =>
    if c = 'L' ∨ c = 'S' then
      match rest.span Char.isDigit with
      | (ds, rest2) =>
        if ds.isEmpty then none
        else
          match rest2 with
          | 'T' :: rest3 =>
            (match rest3.span Char.isDigit with
             | (ts, rest4) =>
               if ts.isEmpty ∨ rest4 ≠ [] then none
               else some ⟨digitsToNat ds, digitsToNat ts⟩)
          | _ => none
    else none

/-! ### Consumer projector (ortc.rs, `get_consumer_rtp_parameters`)

The two random draws (`generate_ssrc()` for the encoding SSRC and for the
RTX SSRC) are explicit arguments.  The index-based removal of useless RTX
codecs (collect indices, remove in reverse) is a filter: whether an entry is
removed depends only on the entry's value and on the pre-removal list. -/

/-- Step one of the consumer projector (ortc.rs, lines 655–664): keep every
consumable codec matched by some peer capability codec (first match wins),
overriding its feedback list with the capability's. -/
def matchedConsumerCodecs (consumableParams : RtpParameters)
    (caps : RtpCapabilities) : List RtpCodecParameters :=
  consumableParams.codecs.filterMap (fun codec =>
    (caps.codecs.find? (fun capCodec =>
        (match_codecs capCodec.toMatch codec.toMatch true).isSome)).map
      (fun capCodec => codec.withRtcpFeedback capCodec.rtcpFeedback))

/-- Whether an RTX codec has an associated media codec in the list: some
entry's payload type equals its `apt` (ortc.rs, lines 670–677). -/
def hasAssociatedMediaCodec (codecs : List RtpCodecParameters)
    (codec : RtpCodecParameters) : Bool :=
  (codecs.find? (fun mediaCodec =>
    match paramsGet codec.parameters "apt" with
    | some (.num apt) => mediaCodec.payloadType == apt
    | _ => false)).isSome

/-- The consumer codec list after removing useless RTX codecs (ortc.rs,
lines 665–688). -/
def sanitizedConsumerCodecs (consumableParams : RtpParameters)
    (caps : RtpCapabilities) : List RtpCodecParameters :=
  let codecs0 := matchedConsumerCodecs consumableParams caps
  codecs0.filter (fun codec =>
    !codec.isRtx || hasAssociatedMediaCodec codecs0 codec)

/-- `rtx_supported` (ortc.rs, lines 653, 679–680): some retained RTX codec
has an associated media codec. -/
def consumerRtxSupported (consumableParams : RtpParameters)
    (caps : RtpCapabilities) : Bool :=
  let codecs0 := matchedConsumerCodecs consumableParams caps
  codecs0.any (fun codec =>
    codec.isRtx && hasAssociatedMediaCodec codecs0 codec)

/-- The retained consumer header extensions (ortc.rs, lines 695–704): keep a
consumable extension iff some peer capability extension has the same
`(uri, preferred_id)`. -/
def consumerHeaderExtensions (consumableParams : RtpParameters)
    (caps : RtpCapabilities) : List RtpHeaderExtensionParameters :=
  consumableParams.headerExtensions.filter (fun ext =>
    caps.headerExtensions.any (fun capExt =>
      capExt.preferredId == ext.id && capExt.uri == ext.uri))

/-- The feedback-reduction policy (ortc.rs, lines 706–733), conditioned on
the retained consumer extensions. -/
def reduceConsumerFeedback
    (headerExtensions : List RtpHeaderExtensionParameters)
    (codecs : List RtpCodecParameters) : List RtpCodecParameters :=
  if headerExtensions.any (fun ext =>
      ext.uri == RtpHeaderExtensionUri.TransportWideCCDraft01) then
    codecs.map (fun codec =>
      codec.retainRtcpFeedback (fun fb => fb != RtcpFeedback.GoogRemb))
  else if headerExtensions.any (fun ext =>
      ext.uri == RtpHeaderExtensionUri.AbsSendTime) then
    codecs.map (fun codec =>
      codec.retainRtcpFeedback (fun fb => fb != RtcpFeedback.TransportCC))
  else
    codecs.map (fun codec =>
      codec.retainRtcpFeedback (fun fb =>
        !(fb == RtcpFeedback.GoogRemb || fb == RtcpFeedback.TransportCC)))

/-- The consumer's scalability mode (ortc.rs, lines 746–767): borrow the
first consumable encoding's mode; with simulcast, mangle it into
`S<N>T<T>`. -/
def consumerScalabilityMode (encodings : List RtpEncodingParameters) :
    Option String :=
  let scalabilityMode := encodings.findSome? (fun e => e.scalabilityMode)
  if encodings.length > 1 then
    some ("S" ++ toString encodings.length ++ "T" ++
      toString (((scalabilityMode.bind parseScalabilityMode).getD
        ScalabilityMode.defaultMode).temporalLayers))
  else
    scalabilityMode

/-- Maximum of optional values with `none` below everything (Rust's `Ord`
on `Option<u32>` under `Iterator::max`). -/
def optionMax : Option Nat → Option Nat → Option Nat
  | none, b => b
  | some a, none => some a
  | some a, some b => some (max a b)

/-- The consumer's maximum bitrate (ortc.rs, lines 769–775). -/
def consumerMaxBitrate (encodings : List RtpEncodingParameters) :
    Option Nat :=
  encodings.foldl (fun acc e => optionMax acc e.maxBitrate) none

/-- `get_consumer_rtp_parameters` (ortc.rs, lines 641–784).  `ssrc` and
`rtxSsrc` stand for the two random draws. -/
def get_consumer_rtp_parameters (consumableParams : RtpParameters)
    (caps : RtpCapabilities) (ssrc rtxSsrc : Nat) :
    Except ConsumerRtpParametersError RtpParameters :=
  match validateCapCodecs caps.codecs with
  | .error e => .error (.InvalidCapabilities e)
  | .ok _ =>
    let codecs1 := sanitizedConsumerCodecs consumableParams caps
    if codecs1.isEmpty ||
        (codecs1.head?.map RtpCodecParameters.isRtx).getD false then
      .error .NoCompatibleMediaCodecs
    else
      let headerExtensions := consumerHeaderExtensions consumableParams caps
      let codecs2 := reduceConsumerFeedback headerExtensions codecs1
      let rtxSupported := consumerRtxSupported consumableParams caps
      let consumerEncoding : RtpEncodingParameters :=
        { ssrc := some ssrc
          rtx := if rtxSupported then some ⟨rtxSsrc⟩ else none
          scalabilityMode := consumerScalabilityMode consumableParams.encodings
          maxBitrate := consumerMaxBitrate consumableParams.encodings }
      .ok
        { mid := none
          codecs := codecs2
          headerExtensions := headerExtensions
          encodings := [consumerEncoding]
          rtcp := consumableParams.rtcp }

/-! ### Pipe consumer projector (ortc.rs,
`get_pipe_consumer_rtp_parameters`) -/

/-- The feedback kept by the pipe projector: always `nack pli` and
`ccm fir`, plus `nack` iff RTX is enabled (ortc.rs, lines 809–812). -/
def pipeFeedbackFilter (enableRtx : Bool) (fb : RtcpFeedback) : Bool :=
  fb == RtcpFeedback.NackPli || fb == RtcpFeedback.CcmFir ||
    (enableRtx && fb == RtcpFeedback.Nack)

/-- `get_pipe_consumer_rtp_parameters` (ortc.rs, lines 790–850).
`baseSsrc` and `rtxBaseSsrc` stand for the two random draws; encoding `i`
receives `baseSsrc + i` (and `rtxBaseSsrc + i` when RTX is enabled). -/
def get_pipe_consumer_rtp_parameters (consumableParams : RtpParameters)
    (enableRtx : Bool) (baseSsrc rtxBaseSsrc : Nat) : RtpParameters :=
  { mid := none
    codecs := (consumableParams.codecs.filter (fun codec =>
        enableRtx || !codec.isRtx)).map
      (fun codec => codec.retainRtcpFeedback (pipeFeedbackFilter enableRtx))
    headerExtensions := consumableParams.headerExtensions.filter (fun ext =>
      !(ext.uri == RtpHeaderExtensionUri.MID ||
        ext.uri == RtpHeaderExtensionUri.AbsSendTime ||
        ext.uri == RtpHeaderExtensionUri.TransportWideCCDraft01))
    encodings := consumableParams.encodings.enum.map (fun q =>
      { q.2 with
        ssrc := some (baseSsrc + q.1)
        rtx := if enableRtx then some ⟨rtxBaseSsrc + q.1⟩ else none })
    rtcp := consumableParams.rtcp }

/-! ### Small facts about codec accessors -/

theorem isRtx_withRtcpFeedback (c : RtpCodecParameters)
    (fb : List RtcpFeedback) : (c.withRtcpFeedback fb).isRtx = c.isRtx := by
  cases c with
  | audio _ _ _ _ _ _ => rfl
  | video m _ _ _ _ => cases m <;> rfl

theorem rtcpFeedback_withRtcpFeedback (c : RtpCodecParameters)
    (fb : List RtcpFeedback) : (c.withRtcpFeedback fb).rtcpFeedback = fb := by
  cases c <;> rfl

theorem withRtcpFeedback_restore (c : RtpCodecParameters)
    (fb : List RtcpFeedback) :
    (c.withRtcpFeedback fb).withRtcpFeedback c.rtcpFeedback = c := by
  cases c <;> rfl

theorem payloadType_withRtcpFeedback (c : RtpCodecParameters)
    (fb : List RtcpFeedback) :
    (c.withRtcpFeedback fb).payloadType = c.payloadType := by
  cases c <;> rfl

theorem parameters_withRtcpFeedback (c : RtpCodecParameters)
    (fb : List RtcpFeedback) :
    (c.withRtcpFeedback fb).parameters = c.parameters := by
  cases c <;> rfl

theorem isRtx_retainRtcpFeedback (c : RtpCodecParameters)
    (p : RtcpFeedback → Bool) : (c.retainRtcpFeedback p).isRtx = c.isRtx :=
  isRtx_withRtcpFeedback c _

theorem preferredPayloadType_insertParameter
    (c : RtpCodecCapabilityFinalized) (k : String) (v : ParamValue) :
    (c.insertParameter k v).preferredPayloadType = c.preferredPayloadType := by
  cases c <;> rfl

/-! ### Claim theorems -/

/-- C8: `get_pipe_consumer_rtp_parameters` keeps every codec of the
consumable parameters when `enable_rtx` is true and drops the RTX codecs
when it is false; each kept codec is the consumable codec with its
`rtcp_feedback` reduced to exactly the retained set (`nack pli`,
`ccm fir`, plus `nack` iff `enable_rtx`); the header extensions `MID`,
`AbsSendTime` and `TransportWideCCDraft01` are removed while all others are
kept; and the result has exactly as many encodings as the consumable
parameters. -/
theorem pipe_consumer_projection (cp : RtpParameters) (enableRtx : Bool)
    (baseSsrc rtxBaseSsrc : Nat) :
    (get_pipe_consumer_rtp_parameters cp enableRtx baseSsrc
        rtxBaseSsrc).encodings.length = cp.encodings.length ∧
    (∀ e, e ∈ (get_pipe_consumer_rtp_parameters cp enableRtx baseSsrc
        rtxBaseSsrc).headerExtensions ↔
      (e ∈ cp.headerExtensions ∧ e.uri ≠ RtpHeaderExtensionUri.MID ∧
        e.uri ≠ RtpHeaderExtensionUri.AbsSendTime ∧
        e.uri ≠ RtpHeaderExtensionUri.TransportWideCCDraft01)) ∧
    List.Forall₂
      (fun k c =>
        k.withRtcpFeedback c.rtcpFeedback = c ∧
        ∀ f, f ∈ k.rtcpFeedback ↔
          (f ∈ c.rtcpFeedback ∧
            (f = RtcpFeedback.NackPli ∨ f = RtcpFeedback.CcmFir ∨
              (enableRtx = true ∧ f = RtcpFeedback.Nack))))
      (get_pipe_consumer_rtp_parameters cp enableRtx baseSsrc
        rtxBaseSsrc).codecs
      (cp.codecs.filter (fun c => enableRtx || !c.isRtx)) ∧
    (enableRtx = false →
      ∀ c ∈ (get_pipe_consumer_rtp_parameters cp enableRtx baseSsrc
        rtxBaseSsrc).codecs, c.isRtx = false) ∧
    (enableRtx = true →
      (get_pipe_consumer_rtp_parameters cp enableRtx baseSsrc
        rtxBaseSsrc).codecs.length = cp.codecs.length) := by
  refine ⟨?_, ?_, ?_, ?_, ?_⟩
  · simp [get_pipe_consumer_rtp_parameters]
  · intro e
    simp only [get_pipe_consumer_rtp_parameters, List.mem_filter]
    constructor
    · rintro ⟨hm, hp⟩
      refine ⟨hm, ?_, ?_, ?_⟩ <;>
        · intro he
          rw [he] at hp
          simp at hp
    · rintro ⟨hm, h1, h2, h3⟩
      refine ⟨hm, ?_⟩
      simp only [Bool.not_eq_true', Bool.or_eq_false_iff]
      refine ⟨⟨?_, ?_⟩, ?_⟩ <;> simpa
  · simp only [get_pipe_consumer_rtp_parameters]
    rw [List.forall₂_map_left_iff]
    rw [List.forall₂_same]
    intro c hc
    constructor
    · exact withRtcpFeedback_restore c _
    · intro f
      simp only [RtpCodecParameters.retainRtcpFeedback,
        rtcpFeedback_withRtcpFeedback, List.mem_filter, pipeFeedbackFilter]
      constructor
      · rintro ⟨hm, hp⟩
        refine ⟨hm, ?_⟩
        simp only [Bool.or_eq_true, beq_iff_eq, Bool.and_eq_true] at hp
        tauto
      · rintro ⟨hm, hp⟩
        refine ⟨hm, ?_⟩
        simp only [Bool.or_eq_true, beq_iff_eq, Bool.and_eq_true]
        tauto
  · intro hrtx c hc
    simp only [get_pipe_consumer_rtp_parameters, hrtx, List.mem_map] at hc
    obtain ⟨c0, hc0, hce⟩ := hc
    rw [List.mem_filter] at hc0
    have := hc0.2
    simp only [Bool.false_or, Bool.not_eq_true'] at this
    rw [← hce, isRtx_retainRtcpFeedback]
    exact this
  · intro hrtx
    simp [get_pipe_consumer_rtp_parameters, hrtx]

/-! ### Inversion of the consumer projector -/

/-- What a successful run of `get_consumer_rtp_parameters` pins down:
validation passed, the sanitized codec list is non-empty with a non-RTX
head, and the result is built from the sanitized codecs, the retained
extensions and a single encoding. -/
theorem consumer_ok_elim {cp : RtpParameters} {caps : RtpCapabilities}
    {ssrc rtxSsrc : Nat} {K : RtpParameters}
    (h : get_consumer_rtp_parameters cp caps ssrc rtxSsrc = .ok K) :
    validateCapCodecs caps.codecs = .ok () ∧
    (sanitizedConsumerCodecs cp caps).isEmpty = false ∧
    ((sanitizedConsumerCodecs cp caps).head?.map
      RtpCodecParameters.isRtx).getD false = false ∧
    K = { mid := none
          codecs := reduceConsumerFeedback
            (consumerHeaderExtensions cp caps)
            (sanitizedConsumerCodecs cp caps)
          headerExtensions := consumerHeaderExtensions cp caps
          encodings := [{ ssrc := some ssrc
                          rtx := if consumerRtxSupported cp caps then
                              some ⟨rtxSsrc⟩
                            else none
                          scalabilityMode :=
                            consumerScalabilityMode cp.encodings
                          maxBitrate := consumerMaxBitrate cp.encodings }]
          rtcp := cp.rtcp } := by
  unfold get_consumer_rtp_parameters at h
  rcases hv : validateCapCodecs caps.codecs with e | u
  · rw [hv] at h
    exact absurd h (by simp)
  · rw [hv] at h
    by_cases hc : ((sanitizedConsumerCodecs cp caps).isEmpty ||
        ((sanitizedConsumerCodecs cp caps).head?.map
          RtpCodecParameters.isRtx).getD false) = true
    · rw [if_pos hc] at h
      exact absurd h (by simp)
    · rw [if_neg hc] at h
      rw [Bool.or_eq_true, not_or] at hc
      obtain ⟨h1, h2⟩ := hc
      cases u
      refine ⟨rfl, by simpa using h1, by simpa using h2, ?_⟩
      exact (Except.ok.injEq _ _).mp h.symm

/-- The feedback reduction is a per-codec map that preserves length, head
shape and `is_rtx`. -/
theorem reduceConsumerFeedback_shape
    (exts : List RtpHeaderExtensionParameters)
    (l : List RtpCodecParameters) :
    (reduceConsumerFeedback exts l).length = l.length ∧
    (reduceConsumerFeedback exts l).head?.map RtpCodecParameters.isRtx =
      l.head?.map RtpCodecParameters.isRtx := by
  unfold reduceConsumerFeedback
  split
  · refine ⟨by simp, ?_⟩
    cases l <;> simp [isRtx_retainRtcpFeedback]
  · split
    · refine ⟨by simp, ?_⟩
      cases l <;> simp [isRtx_retainRtcpFeedback]
    · refine ⟨by simp, ?_⟩
      cases l <;> simp [isRtx_retainRtcpFeedback]

/-- Feedback guarantees of the reduction, per branch. -/
theorem reduceConsumerFeedback_spec
    (exts : List RtpHeaderExtensionParameters)
    (l : List RtpCodecParameters) (c : RtpCodecParameters)
    (hc : c ∈ reduceConsumerFeedback exts l) :
    ((exts.any (fun ext =>
        ext.uri == RtpHeaderExtensionUri.TransportWideCCDraft01)) = true →
      RtcpFeedback.GoogRemb ∉ c.rtcpFeedback) ∧
    ((exts.any (fun ext =>
        ext.uri == RtpHeaderExtensionUri.TransportWideCCDraft01)) = false →
      (exts.any (fun ext =>
        ext.uri == RtpHeaderExtensionUri.AbsSendTime)) = true →
      RtcpFeedback.TransportCC ∉ c.rtcpFeedback) ∧
    ((exts.any (fun ext =>
        ext.uri == RtpHeaderExtensionUri.TransportWideCCDraft01)) = false →
      (exts.any (fun ext =>
        ext.uri == RtpHeaderExtensionUri.AbsSendTime)) = false →
      RtcpFeedback.GoogRemb ∉ c.rtcpFeedback ∧
        RtcpFeedback.TransportCC ∉ c.rtcpFeedback) := by
  unfold reduceConsumerFeedback at hc
  by_cases h1 : (exts.any (fun ext =>
      ext.uri == RtpHeaderExtensionUri.TransportWideCCDraft01)) = true
  · rw [if_pos h1] at hc
    obtain ⟨c0, hc0, hce⟩ := List.mem_map.mp hc
    refine ⟨fun _ => ?_, fun hf => absurd h1 (by simp [hf]),
      fun hf => absurd h1 (by simp [hf])⟩
    rw [← hce]
    simp only [RtpCodecParameters.retainRtcpFeedback,
      rtcpFeedback_withRtcpFeedback]
    intro hm
    have := (List.mem_filter.mp hm).2
    simp at this
  · rw [if_neg h1] at hc
    by_cases h2 : (exts.any (fun ext =>
        ext.uri == RtpHeaderExtensionUri.AbsSendTime)) = true
    · rw [if_pos h2] at hc
      obtain ⟨c0, hc0, hce⟩ := List.mem_map.mp hc
      refine ⟨fun hf => absurd hf h1, fun _ _ => ?_,
        fun _ hf => absurd h2 (by simp [hf])⟩
      rw [← hce]
      simp only [RtpCodecParameters.retainRtcpFeedback,
        rtcpFeedback_withRtcpFeedback]
      intro hm
      have := (List.mem_filter.mp hm).2
      simp at this
    · rw [if_neg h2] at hc
      obtain ⟨c0, hc0, hce⟩ := List.mem_map.mp hc
      refine ⟨fun hf => absurd hf h1, fun _ hf => absurd hf h2,
        fun _ _ => ?_⟩
      rw [← hce]
      simp only [RtpCodecParameters.retainRtcpFeedback,
        rtcpFeedback_withRtcpFeedback]
      constructor <;>
        · intro hm
          have := (List.mem_filter.mp hm).2
          simp at this

/-- C5: in every successful consumer projection exactly one
feedback-reduction branch applies, evaluated in order — `goog-remb` is
stripped when the retained extensions include TransportWideCCDraft01, else
`transport-cc` is stripped when they include AbsSendTime, else both are
stripped — and consequently no codec of the result carries both
`transport-cc` and `goog-remb`. -/
theorem consumer_feedback_reduction (cp : RtpParameters)
    (caps : RtpCapabilities) (ssrc rtxSsrc : Nat) (K : RtpParameters)
    (h : get_consumer_rtp_parameters cp caps ssrc rtxSsrc = .ok K) :
    ((∃ e ∈ K.headerExtensions,
        e.uri = RtpHeaderExtensionUri.TransportWideCCDraft01) →
      ∀ c ∈ K.codecs, RtcpFeedback.GoogRemb ∉ c.rtcpFeedback) ∧
    (¬(∃ e ∈ K.headerExtensions,
        e.uri = RtpHeaderExtensionUri.TransportWideCCDraft01) →
      (∃ e ∈ K.headerExtensions,
        e.uri = RtpHeaderExtensionUri.AbsSendTime) →
      ∀ c ∈ K.codecs, RtcpFeedback.TransportCC ∉ c.rtcpFeedback) ∧
    (¬(∃ e ∈ K.headerExtensions,
        e.uri = RtpHeaderExtensionUri.TransportWideCCDraft01) →
      ¬(∃ e ∈ K.headerExtensions,
        e.uri = RtpHeaderExtensionUri.AbsSendTime) →
      ∀ c ∈ K.codecs, RtcpFeedback.GoogRemb ∉ c.rtcpFeedback ∧
        RtcpFeedback.TransportCC ∉ c.rtcpFeedback) ∧
    (∀ c ∈ K.codecs, ¬(RtcpFeedback.TransportCC ∈ c.rtcpFeedback ∧
      RtcpFeedback.GoogRemb ∈ c.rtcpFeedback)) := by
  obtain ⟨-, -, -, hK⟩ := consumer_ok_elim h
  subst hK
  simp only
  have hconv1 : (∃ e ∈ consumerHeaderExtensions cp caps,
      e.uri = RtpHeaderExtensionUri.TransportWideCCDraft01) ↔
      ((consumerHeaderExtensions cp caps).any (fun ext =>
        ext.uri == RtpHeaderExtensionUri.TransportWideCCDraft01)) = true := by
    rw [List.any_eq_true]
    simp
  have hconv2 : (∃ e ∈ consumerHeaderExtensions cp caps,
      e.uri = RtpHeaderExtensionUri.AbsSendTime) ↔
      ((consumerHeaderExtensions cp caps).any (fun ext =>
        ext.uri == RtpHeaderExtensionUri.AbsSendTime)) = true := by
    rw [List.any_eq_true]
    simp
  refine ⟨?_, ?_, ?_, ?_⟩
  · intro hex c hc
    exact (reduceConsumerFeedback_spec _ _ c hc).1 (hconv1.mp hex)
  · intro hex1 hex2 c hc
    exact (reduceConsumerFeedback_spec _ _ c hc).2.1
      (Bool.eq_false_iff.mpr (fun hh => hex1 (hconv1.mpr hh)))
      (hconv2.mp hex2)
  · intro hex1 hex2 c hc
    exact (reduceConsumerFeedback_spec _ _ c hc).2.2
      (Bool.eq_false_iff.mpr (fun hh => hex1 (hconv1.mpr hh)))
      (Bool.eq_false_iff.mpr (fun hh => hex2 (hconv2.mpr hh)))
  · intro c hc
    rintro ⟨htcc, hremb⟩
    by_cases h1 : (∃ e ∈ consumerHeaderExtensions cp caps,
        e.uri = RtpHeaderExtensionUri.TransportWideCCDraft01)
    · exact (reduceConsumerFeedback_spec _ _ c hc).1 (hconv1.mp h1) hremb
    · by_cases h2 : (∃ e ∈ consumerHeaderExtensions cp caps,
          e.uri = RtpHeaderExtensionUri.AbsSendTime)
      · exact (reduceConsumerFeedback_spec _ _ c hc).2.1
          (Bool.eq_false_iff.mpr (fun hh => h1 (hconv1.mpr hh)))
          (hconv2.mp h2) htcc
      · exact ((reduceConsumerFeedback_spec _ _ c hc).2.2
          (Bool.eq_false_iff.mpr (fun hh => h1 (hconv1.mpr hh)))
          (Bool.eq_false_iff.mpr (fun hh => h2 (hconv2.mpr hh)))).1 hremb

/-- C6: the consumer projector returns `NoCompatibleMediaCodecs` exactly
when (the peer capabilities validate and) the sanitized codec list is empty
or headed by an RTX codec; and every successful result has a non-empty
codec list headed by a media codec. -/
theorem consumer_no_compatible_media_codecs (cp : RtpParameters)
    (caps : RtpCapabilities) (ssrc rtxSsrc : Nat) :
    (get_consumer_rtp_parameters cp caps ssrc rtxSsrc =
        .error .NoCompatibleMediaCodecs ↔
      (validateCapCodecs caps.codecs = .ok () ∧
        (sanitizedConsumerCodecs cp caps = [] ∨
          ((sanitizedConsumerCodecs cp caps).head?.map
            RtpCodecParameters.isRtx).getD false = true))) ∧
    (∀ K, get_consumer_rtp_parameters cp caps ssrc rtxSsrc = .ok K →
      K.codecs ≠ [] ∧
      (K.codecs.head?.map RtpCodecParameters.isRtx).getD false = false) := by
  constructor
  · constructor
    · intro h
      unfold get_consumer_rtp_parameters at h
      rcases hv : validateCapCodecs caps.codecs with e | u <;> rw [hv] at h
      · exact absurd h (by simp)
      · cases u
        by_cases hc : ((sanitizedConsumerCodecs cp caps).isEmpty ||
            ((sanitizedConsumerCodecs cp caps).head?.map
              RtpCodecParameters.isRtx).getD false) = true
        · simp only [Bool.or_eq_true, List.isEmpty_iff] at hc
          exact ⟨rfl, hc⟩
        · rw [if_neg hc] at h
          exact absurd h (by simp)
    · rintro ⟨h1, h2⟩
      have hcond : ((sanitizedConsumerCodecs cp caps).isEmpty ||
          ((sanitizedConsumerCodecs cp caps).head?.map
            RtpCodecParameters.isRtx).getD false) = true := by
        rcases h2 with h2 | h2
        · simp [h2]
        · simp [h2]
      unfold get_consumer_rtp_parameters
      rw [h1]
      simp [hcond]
  · intro K hK
    obtain ⟨-, hne, hhead, hKe⟩ := consumer_ok_elim hK
    subst hKe
    obtain ⟨hlen, hh⟩ := reduceConsumerFeedback_shape
      (consumerHeaderExtensions cp caps) (sanitizedConsumerCodecs cp caps)
    constructor
    · show reduceConsumerFeedback _ _ ≠ []
      intro hnil
      have h0 : (sanitizedConsumerCodecs cp caps).length = 0 := by
        rw [← hlen, hnil]
        rfl
      rw [List.length_eq_zero.mp h0] at hne
      simp at hne
    · show ((reduceConsumerFeedback (consumerHeaderExtensions cp caps)
        (sanitizedConsumerCodecs cp caps)).head?.map
          RtpCodecParameters.isRtx).getD false = false
      rw [hh]
      exact hhead

theorem foldl_optionMax_none (l : List RtpEncodingParameters)
    (acc : Option Nat) :
    l.foldl (fun a e => optionMax a e.maxBitrate) acc = none ↔
      (acc = none ∧ ∀ e ∈ l, e.maxBitrate = none) := by
  induction l generalizing acc with
  | nil => simp
  | cons e t ih =>
    rw [List.foldl_cons, ih]
    constructor
    · rintro ⟨h1, h2⟩
      rcases hacc : acc with _ | a <;>
        rcases hmb : e.maxBitrate with _ | b <;>
          rw [hacc, hmb] at h1 <;> simp [optionMax] at h1
      refine ⟨rfl, ?_⟩
      intro x hx
      rcases List.mem_cons.mp hx with hx | hx
      · rw [hx]; exact hmb
      · exact h2 x hx
    · rintro ⟨h1, h2⟩
      subst h1
      have hmb : e.maxBitrate = none := h2 e (List.mem_cons_self e t)
      rw [hmb]
      exact ⟨rfl, fun x hx => h2 x (List.mem_cons_of_mem e hx)⟩

theorem foldl_optionMax_acc_le (l : List RtpEncodingParameters) :
    ∀ (acc : Option Nat) (w v : Nat), acc = some w →
      l.foldl (fun a e => optionMax a e.maxBitrate) acc = some v →
      w ≤ v := by
  induction l with
  | nil =>
    intro acc w v h1 h2
    rw [h1] at h2
    simp only [List.foldl_nil] at h2
    injection h2 with h2
    omega
  | cons e t ih =>
    intro acc w v h1 h2
    rw [List.foldl_cons] at h2
    rcases hmb : e.maxBitrate with _ | b
    · rw [h1, hmb] at h2
      exact ih _ w v rfl h2
    · rw [h1, hmb] at h2
      have := ih _ (max w b) v rfl h2
      exact le_trans (le_max_left w b) this

theorem foldl_optionMax_some (l : List RtpEncodingParameters) :
    ∀ (acc : Option Nat) (v : Nat),
    l.foldl (fun a e => optionMax a e.maxBitrate) acc = some v →
      (acc = some v ∨ ∃ e ∈ l, e.maxBitrate = some v) ∧
      (∀ e ∈ l, ∀ w, e.maxBitrate = some w → w ≤ v) := by
  induction l with
  | nil =>
    intro acc v h
    simp only [List.foldl_nil] at h
    exact ⟨Or.inl h, by simp⟩
  | cons e t ih =>
    intro acc v h
    rw [List.foldl_cons] at h
    obtain ⟨hsrc, htail⟩ := ih _ v h
    have hself : ∀ w, e.maxBitrate = some w → w ≤ v := by
      intro w hw
      rcases hacc : acc with _ | a
      · have hm : optionMax acc e.maxBitrate = some w := by
          rw [hacc, hw]; rfl
        exact foldl_optionMax_acc_le t _ w v hm h
      · have hm : optionMax acc e.maxBitrate = some (max a w) := by
          rw [hacc, hw]; rfl
        have hv := foldl_optionMax_acc_le t _ (max a w) v hm h
        exact le_trans (le_max_right a w) hv
    refine ⟨?_, ?_⟩
    · rcases hsrc with hsrc | hsrc
      · rcases hacc : acc with _ | a <;>
          rcases hmb : e.maxBitrate with _ | b <;> rw [hacc, hmb] at hsrc
        · exact absurd hsrc (by simp [optionMax])
        · simp only [optionMax] at hsrc
          refine Or.inr ⟨e, List.mem_cons_self e t, ?_⟩
          rw [hmb]; exact hsrc
        · simp only [optionMax] at hsrc
          exact Or.inl hsrc
        · simp only [optionMax] at hsrc
          injection hsrc with hsrc
          rcases Nat.le_total a b with hab | hab
          · refine Or.inr ⟨e, List.mem_cons_self e t, ?_⟩
            rw [hmb, ← hsrc, Nat.max_eq_right hab]
          · refine Or.inl ?_
            rw [← hsrc, Nat.max_eq_left hab]
      · obtain ⟨x, hx, hxe⟩ := hsrc
        exact Or.inr ⟨x, List.mem_cons_of_mem e hx, hxe⟩
    · intro x hx w hw
      rcases List.mem_cons.mp hx with hx | hx
      · subst hx
        exact hself w hw
      · exact htail x hx w hw

/-- C4: every successful consumer projection has exactly one encoding; its
scalability mode is borrowed from the first consumable encoding carrying
one, except that with more than one consumable encoding it is replaced by
`S<N>T<T>` (N the encoding count, T the parsed temporal-layer count, zero
when the borrowed mode is absent or unparseable); and its maximum bitrate is
the maximum over the consumable encodings' maximum bitrates, absent exactly
when none carries one. -/
theorem consumer_single_encoding (cp : RtpParameters)
    (caps : RtpCapabilities) (ssrc rtxSsrc : Nat) (K : RtpParameters)
    (h : get_consumer_rtp_parameters cp caps ssrc rtxSsrc = .ok K) :
    K.encodings.length = 1 ∧
    ∀ e ∈ K.encodings,
      (e.scalabilityMode =
        (if cp.encodings.length > 1 then
          some ("S" ++ toString cp.encodings.length ++ "T" ++
            toString ((((cp.encodings.findSome? (fun en =>
              en.scalabilityMode)).bind parseScalabilityMode).getD
                ScalabilityMode.defaultMode).temporalLayers))
        else cp.encodings.findSome? (fun en => en.scalabilityMode))) ∧
      (e.maxBitrate = none ↔ ∀ en ∈ cp.encodings, en.maxBitrate = none) ∧
      (∀ v, e.maxBitrate = some v →
        (∃ en ∈ cp.encodings, en.maxBitrate = some v) ∧
        (∀ en ∈ cp.encodings, ∀ w, en.maxBitrate = some w → w ≤ v)) := by
  obtain ⟨-, -, -, hK⟩ := consumer_ok_elim h
  subst hK
  refine ⟨rfl, ?_⟩
  intro e he
  simp only [List.mem_singleton] at he
  subst he
  refine ⟨rfl, ?_, ?_⟩
  · simp only [consumerMaxBitrate]
    rw [foldl_optionMax_none]
    simp
  · intro v hv
    simp only [consumerMaxBitrate] at hv
    obtain ⟨hsrc, htail⟩ := foldl_optionMax_some cp.encodings none v hv
    rcases hsrc with hsrc | hsrc
    · exact absurd hsrc (by simp)
    · exact ⟨hsrc, htail⟩

/-! ### Concrete consumer run used by the consumer-projector witnesses -/

/-- A small consumable parameter set: one VP8 codec, two simulcast
encodings. -/
def cwConsumable : RtpParameters :=
  { codecs := [.video .VP8 100 90000 []
      [.Nack, .NackPli, .TransportCC, .GoogRemb]]
    headerExtensions := []
    encodings := [
      { scalabilityMode := some "L1T3", maxBitrate := some 111 },
      { scalabilityMode := some "L1T3", maxBitrate := some 222 }]
    rtcp := {} }

/-- Peer capabilities accepting VP8 and no header extensions. -/
def cwCaps : RtpCapabilities :=
  { codecs := [.video .VP8 none 90000 [] [.Nack, .TransportCC, .GoogRemb]]
    headerExtensions := []
    fecMechanisms := [] }

/-- The resulting consumer parameters for SSRC draws 7 and 8. -/
def cwK : RtpParameters :=
  { codecs := [.video .VP8 100 90000 [] [.Nack]]
    headerExtensions := []
    encodings := [{ ssrc := some 7, scalabilityMode := some "S2T3",
                    maxBitrate := some 222 }]
    rtcp := {} }

theorem consumer_single_encoding_witness : cwK.encodings.length = 1 :=
  (consumer_single_encoding cwConsumable cwCaps 7 8 cwK (by decide)).1

theorem consumer_feedback_reduction_witness :
    ¬(RtcpFeedback.TransportCC ∈
        (RtpCodecParameters.video .VP8 100 90000 []
          [.Nack] : RtpCodecParameters).rtcpFeedback ∧
      RtcpFeedback.GoogRemb ∈
        (RtpCodecParameters.video .VP8 100 90000 []
          [.Nack] : RtpCodecParameters).rtcpFeedback) :=
  (consumer_feedback_reduction cwConsumable cwCaps 7 8 cwK
    (by decide)).2.2.2 _ (by decide)

theorem consumer_no_compatible_media_codecs_witness :
    cwK.codecs ≠ [] ∧
    (cwK.codecs.head?.map RtpCodecParameters.isRtx).getD false = false :=
  (consumer_no_compatible_media_codecs cwConsumable cwCaps 7 8).2 cwK
    (by decide)

theorem consumer_ok_elim_check :
    get_consumer_rtp_parameters cwConsumable cwCaps 7 8 = .ok cwK := by
  decide

/-! ### Symmetry of the codec matcher -/

/-- `==` on strings is symmetric. -/
theorem strBeq_comm (s t : String) : (s == t) = (t == s) := by
  by_cases h : s = t
  · rw [h]
  · have h1 : (s == t) = false :=
      Bool.eq_false_iff.mpr (fun hh => h (eq_of_beq hh))
    have h2 : (t == s) = false :=
      Bool.eq_false_iff.mpr (fun hh => h (eq_of_beq hh).symm)
    rw [h1, h2]

/-- The modelled `is_same_profile` succeeds symmetrically. -/
theorem h264IsSameProfile_isSome_comm (x y : Option String) :
    (h264IsSameProfile x y).isSome = (h264IsSameProfile y x).isSome := by
  simp only [h264IsSameProfile]
  rw [strBeq_comm (h264ProfilePart (y.getD h264DefaultId))
      (h264ProfilePart (x.getD h264DefaultId)),
    Bool.and_comm (h264ValidId (y.getD h264DefaultId))
      (h264ValidId (x.getD h264DefaultId))]
  by_cases h : (h264ValidId (x.getD h264DefaultId) &&
      h264ValidId (y.getD h264DefaultId) &&
      (h264ProfilePart (x.getD h264DefaultId) ==
        h264ProfilePart (y.getD h264DefaultId))) = true
  · rw [if_pos h, if_pos h]
    rfl
  · rw [if_neg h, if_neg h]

/-- The modelled answer generator never fails. -/
theorem h264Gen_isSome (a : String) (x : Bool) (b : String) (y : Bool) :
    (h264GenerateProfileLevelIdForAnswer a x b y).isSome = true := by
  unfold h264GenerateProfileLevelIdForAnswer
  by_cases h1 : (x && y) = true
  · rw [if_pos h1]; rfl
  · rw [if_neg h1]
    by_cases h2 : h264LevelValue a ≤ h264LevelValue b
    · rw [if_pos h2]; rfl
    · rw [if_neg h2]; rfl

/-- The strict H.264 branch of the matcher succeeds exactly when
`is_same_profile` does. -/
theorem h264_branch_isSome (pa pb : Option String) (asymA asymB : Bool) :
    (match h264IsSameProfile pa pb with
     | none => none
     | some (x, y) =>
       match h264GenerateProfileLevelIdForAnswer x asymA y asymB with
       | some sel => some (some sel)
       | none => (none : Option (Option String))).isSome =
      (h264IsSameProfile pa pb).isSome := by
  rcases h : h264IsSameProfile pa pb with _ | ⟨x, y⟩
  · rfl
  · rcases hg : h264GenerateProfileLevelIdForAnswer x asymA y asymB
        with _ | sel
    · have hi := h264Gen_isSome x asymA y asymB
      rw [hg] at hi
      exact absurd hi (by simp)
    · simp only [hg]
      rfl

/-- The per-codec special checks succeed symmetrically in the two
parameter maps. -/
theorem matchSpecial_symm (mt : MimeType) (psA psB : Parameters)
    (strict : Bool) :
    (matchSpecial mt psA psB strict).isSome =
      (matchSpecial mt psB psA strict).isSome := by
  cases mt with
  | audio m => rfl
  | video mv =>
    cases mv with
    | H264 =>
      simp only [matchSpecial]
      by_cases hpm : (paramsGet psA "packetization-mode").getD (.num 0) =
          (paramsGet psB "packetization-mode").getD (.num 0)
      · rw [if_neg (not_not_intro hpm), if_neg (not_not_intro hpm.symm)]
        cases strict with
        | false => rfl
        | true =>
          rw [if_pos rfl, if_pos rfl, h264_branch_isSome,
            h264_branch_isSome, h264IsSameProfile_isSome_comm]
      · rw [if_pos hpm, if_pos (fun hh => hpm hh.symm)]
    | VP9 =>
      simp only [matchSpecial]
      cases strict with
      | false => rfl
      | true =>
        rw [if_pos rfl, if_pos rfl]
        by_cases hpid : (paramsGet psA "profile-id").getD (.num 0) =
            (paramsGet psB "profile-id").getD (.num 0)
        · rw [if_neg (not_not_intro hpid), if_neg (not_not_intro hpid.symm)]
        · rw [if_pos hpid, if_pos (fun hh => hpid hh.symm)]
    | VP8 => rfl
    | H265 => rfl
    | RTX => rfl

/-- C9: the codec matcher is symmetric in its two operands up to the H.264
augmentation: `match_codecs(A, B, strict)` succeeds iff
`match_codecs(B, A, strict)` succeeds, for every strict flag (only the
returned augmentation may differ). -/
theorem match_codecs_symmetric (a b : CodecToMatch) (strict : Bool) :
    (match_codecs a b strict).isSome = (match_codecs b a strict).isSome := by
  unfold match_codecs
  by_cases h1 : a.mimeType = b.mimeType
  · rw [if_neg (not_not_intro h1), if_neg (not_not_intro h1.symm)]
    by_cases h2 : a.channels = b.channels
    · rw [if_neg (not_not_intro h2), if_neg (not_not_intro h2.symm)]
      by_cases h3 : a.clockRate = b.clockRate
      · rw [if_neg (not_not_intro h3), if_neg (not_not_intro h3.symm)]
        rw [← h1]
        exact matchSpecial_symm a.mimeType a.parameters b.parameters strict
      · rw [if_pos h3, if_pos (fun hh => h3 hh.symm)]
    · rw [if_pos h2, if_pos (fun hh => h2 hh.symm)]
  · rw [if_pos h1, if_pos (fun hh => h1 hh.symm)]

/-! ### RTX companion structure of the finalized capabilities -/

/-- Whether `r` is the RTX companion of a media codec with preferred payload
type `pt` and clock rate `cr`: mime `video/rtx`, same clock rate, the single
parameter `apt = pt`, and empty feedback. -/
def isRtxCompanion (r : RtpCodecCapabilityFinalized) (pt cr : Nat) : Bool :=
  match r with
  | .video .RTX _ rcr rps rfb =>
    decide (rcr = cr) && decide (rps = [("apt", ParamValue.num pt)]) &&
      decide (rfb = [])
  | _ => false

/-- The companion shape of a finalized codec list: every audio codec stands
alone, every video media codec is immediately followed by its RTX companion,
and RTX codecs occur only as such companions (in particular an audio codec
is never followed by an RTX codec). -/
def rtxCompanionOk : List RtpCodecCapabilityFinalized → Bool
  | [] => true
  | c :: rest =>
    match c with
    | .audio _ _ _ _ _ _ => rtxCompanionOk rest
    | .video m pt cr _ _ =>
      if m = MimeTypeVideo.RTX then false
      else
        match rest with
        | [] => false
        | r :: rest2 => isRtxCompanion r pt cr && rtxCompanionOk rest2

theorem rtxCompanionOk_append_audio (l : List RtpCodecCapabilityFinalized)
    (hok : rtxCompanionOk l = true) (m : MimeTypeAudio)
    (pt cr ch : Nat) (ps : Parameters) (fb : List RtcpFeedback) :
    rtxCompanionOk (l ++ [.audio m pt cr ch ps fb]) = true := by
  induction l using rtxCompanionOk.induct with
  | case1 => simp [rtxCompanionOk]
  | case2 rest _ _ _ _ _ _ ih =>
    simp only [rtxCompanionOk] at hok
    simpa [rtxCompanionOk] using ih hok
  | case3 rest vpt vcr vps vfb =>
    rw [rtxCompanionOk.eq_def] at hok
    simp at hok
  | case4 mv vpt vcr vps vfb hmv =>
    simp [rtxCompanionOk, hmv] at hok
  | case5 mv vpt vcr vps vfb hmv r rest2 ih =>
    simp only [rtxCompanionOk, if_neg hmv, Bool.and_eq_true] at hok
    simp only [List.cons_append, rtxCompanionOk, if_neg hmv,
      Bool.and_eq_true]
    exact ⟨hok.1, ih hok.2⟩

theorem rtxCompanionOk_append_pair (l : List RtpCodecCapabilityFinalized)
    (hok : rtxCompanionOk l = true) (m : MimeTypeVideo)
    (hm : ¬(m = MimeTypeVideo.RTX)) (pt cr : Nat) (ps : Parameters)
    (fb : List RtcpFeedback) (rpt : Nat) :
    rtxCompanionOk (l ++ [.video m pt cr ps fb,
      .video .RTX rpt cr [("apt", .num pt)] []]) = true := by
  induction l using rtxCompanionOk.induct with
  | case1 =>
    simp [rtxCompanionOk, hm, isRtxCompanion]
  | case2 rest _ _ _ _ _ _ ih =>
    simp only [rtxCompanionOk] at hok
    simpa [rtxCompanionOk] using ih hok
  | case3 rest vpt vcr vps vfb =>
    rw [rtxCompanionOk.eq_def] at hok
    simp at hok
  | case4 mv vpt vcr vps vfb hmv =>
    simp [rtxCompanionOk, hmv] at hok
  | case5 mv vpt vcr vps vfb hmv r rest2 ih =>
    simp only [rtxCompanionOk, if_neg hmv, Bool.and_eq_true] at hok
    simp only [List.cons_append, rtxCompanionOk, if_neg hmv,
      Bool.and_eq_true]
    exact ⟨hok.1, ih hok.2⟩

/-- No entry of the supported table is an RTX codec. -/
def capMimeNotRtx : RtpCodecCapability → Bool
  | .video m _ _ _ _ => decide (¬(m = MimeTypeVideo.RTX))
  | .audio _ _ _ _ _ _ => true

theorem supported_no_rtx :
    supportedRtpCapabilities.codecs.all capMimeNotRtx = true := by decide

/-- Every fixed preferred payload type of the supported table is a static
assignment below 96 (outside the dynamic pool). -/
def capFixedPtSmall (c : RtpCodecCapability) : Bool :=
  match c.preferredPayloadType with
  | some q => decide (q < 96)
  | none => true

theorem supported_fixed_pts :
    supportedRtpCapabilities.codecs.all capFixedPtSmall = true := by decide

theorem finalizeCodec_pt (codec : RtpCodecCapability) (pt : Nat)
    (ps : Parameters) :
    (finalizeCodec codec pt ps).preferredPayloadType = pt := by
  cases codec <;> rfl

/-- The loop preserves the companion shape of the accumulator. -/
theorem generateLoop_companion (codecs : List RtpCodecCapability) :
    ∀ (pool : List Nat) (acc res : List RtpCodecCapabilityFinalized),
    generateLoop supportedRtpCapabilities codecs pool acc = .ok res →
    rtxCompanionOk acc = true → rtxCompanionOk res = true := by
  induction codecs with
  | nil =>
    intro pool acc res h hacc
    simp only [generateLoop] at h
    rw [← (Except.ok.injEq _ _).mp h]
    exact hacc
  | cons mc rest ih =>
    intro pool acc res h hacc
    simp only [generateLoop] at h
    split at h
    · exact absurd h (by simp)
    · split at h
      · exact absurd h (by simp)
      next codec hfind =>
        split at h
        · exact absurd h (by simp)
        next pt pool1 hpick =>
          split at h
          · exact absurd h (by simp)
          next hdup =>
            split at h
            next hvid =>
              split at h
              · exact absurd h (by simp)
              next pool1x rtxPt pool2 =>
                refine ih pool2 _ res h ?_
                have hmem := List.mem_of_find?_eq_some hfind
                have hnr := (List.all_eq_true.mp supported_no_rtx) codec hmem
                cases codec with
                | audio am apt acr ach aps afb =>
                  exact absurd hvid (by simp [finalizeCodec,
                    RtpCodecCapabilityFinalized.isVideo])
                | video vm vpt vcr vps vfb =>
                  have hmne : ¬(vm = MimeTypeVideo.RTX) := by
                    simpa [capMimeNotRtx] using hnr
                  simpa [finalizeCodec, RtpCodecCapabilityFinalized.clockRate,
                    RtpCodecCapabilityFinalized.preferredPayloadType] using
                    rtxCompanionOk_append_pair acc hacc vm hmne pt vcr
                      (paramsExtend vps mc.parameters) vfb rtxPt
            next hnvid =>
              refine ih pool1 _ res h ?_
              cases codec with
              | audio am apt acr ach aps afb =>
                simpa [finalizeCodec] using
                  rtxCompanionOk_append_audio acc hacc am pt acr ach
                    (paramsExtend aps mc.parameters) afb
              | video vm vpt vcr vps vfb =>
                refine absurd ?_ hnvid
                simp [finalizeCodec, RtpCodecCapabilityFinalized.isVideo]

/-- C7: in every successfully finalized capability set, every video media
(non-RTX) codec is immediately followed by an RTX companion whose single
`apt` parameter equals that codec's preferred payload type, whose clock
rate equals the media codec's, and whose feedback is empty; audio codecs
get no RTX companion. -/
theorem finalized_rtx_companions (mediaCodecs : List RtpCodecCapability)
    (F : RtpCapabilitiesFinalized)
    (h : generate_router_rtp_capabilities mediaCodecs = .ok F) :
    rtxCompanionOk F.codecs = true := by
  unfold generate_router_rtp_capabilities at h
  split at h
  · exact absurd h (by simp)
  · split at h
    · exact absurd h (by simp)
    next codecs heq =>
      rw [← (Except.ok.injEq _ _).mp h]
      exact generateLoop_companion mediaCodecs dynamicPayloadTypes [] codecs
        heq rfl

/-! ### Payload-type uniqueness of the finalized capabilities -/

theorem pickPreferredPayloadType_spec (mediaCodec codec : RtpCodecCapability)
    (pool : List Nat) (pt : Nat) (pool1 : List Nat)
    (h : pickPreferredPayloadType mediaCodec codec pool = .ok (pt, pool1)) :
    (mediaCodec.preferredPayloadType = some pt ∧
      pool1 = pool.filter (fun x => x ≠ pt)) ∨
    (mediaCodec.preferredPayloadType = none ∧
      codec.preferredPayloadType = some pt ∧ pool1 = pool) ∨
    (mediaCodec.preferredPayloadType = none ∧
      codec.preferredPayloadType = none ∧ pool = pt :: pool1) := by
  unfold pickPreferredPayloadType at h
  split at h
  next q hq =>
    injection h with h
    injection h with h1 h2
    subst h1
    exact Or.inl ⟨hq, h2.symm⟩
  next hq =>
    split at h
    next q hc =>
      injection h with h
      injection h with h1 h2
      subst h1
      exact Or.inr (Or.inl ⟨hq, hc, h2.symm⟩)
    next hc =>
      split at h
      · exact absurd h (by simp)
      next p0 hd tl =>
        injection h with h
        injection h with h1 h2
        exact Or.inr (Or.inr ⟨hq, hc, by rw [h1, h2]⟩)

theorem preferredPayloadType_video (m : MimeTypeVideo) (pt cr : Nat)
    (ps : Parameters) (fb : List RtcpFeedback) :
    (RtpCodecCapabilityFinalized.video m pt cr ps fb).preferredPayloadType =
      pt := rfl

theorem nodup_append_one (l : List Nat) (a : Nat) (hl : l.Nodup)
    (ha : a ∉ l) : (l ++ [a]).Nodup := by
  rw [List.nodup_append]
  exact ⟨hl, List.nodup_singleton a, fun x hx hxa => ha (by
    rw [List.mem_singleton] at hxa
    rw [← hxa]
    exact hx)⟩

theorem nodup_append_two (l : List Nat) (a b : Nat) (hl : l.Nodup)
    (ha : a ∉ l) (hb : b ∉ l) (hab : b ≠ a) : (l ++ [a, b]).Nodup := by
  rw [List.nodup_append]
  refine ⟨hl, ?_, ?_⟩
  · rw [List.nodup_cons]
    refine ⟨?_, List.nodup_singleton b⟩
    rw [List.mem_singleton]
    exact fun hh => hab hh.symm
  · intro x hx hxm
    rcases List.mem_cons.mp hxm with hxm | hxm
    · exact ha (hxm ▸ hx)
    · rw [List.mem_singleton] at hxm
      exact hb (hxm ▸ hx)

/-- The invariant of the finalizer loop: distinct emitted payload types,
a duplicate-free dynamic pool inside `[96, 127]` and disjoint from the
emitted types, and every emitted type either at most 127 or blessed by the
predicate `P` (instantiated with "explicitly supplied by the caller"). -/
theorem generateLoop_pts (P : Nat → Prop) (codecs : List RtpCodecCapability) :
    ∀ (pool : List Nat) (acc res : List RtpCodecCapabilityFinalized),
    generateLoop supportedRtpCapabilities codecs pool acc = .ok res →
    (∀ mc ∈ codecs, ∀ q, mc.preferredPayloadType = some q → P q) →
    pool.Nodup →
    (∀ p ∈ pool, 96 ≤ p ∧ p ≤ 127) →
    (acc.map RtpCodecCapabilityFinalized.preferredPayloadType).Nodup →
    (∀ p ∈ pool,
      p ∉ acc.map RtpCodecCapabilityFinalized.preferredPayloadType) →
    (∀ c ∈ acc, c.preferredPayloadType ≤ 127 ∨ P c.preferredPayloadType) →
    ((res.map RtpCodecCapabilityFinalized.preferredPayloadType).Nodup ∧
      ∀ c ∈ res, c.preferredPayloadType ≤ 127 ∨ P c.preferredPayloadType) := by
  induction codecs with
  | nil =>
    intro pool acc res h _ _ _ hnd _ hrange
    simp only [generateLoop] at h
    rw [← (Except.ok.injEq _ _).mp h]
    exact ⟨hnd, hrange⟩
  | cons mc rest ih =>
    intro pool acc res h hP hpoolnd hpoolrange hnd hdisj hrange
    simp only [generateLoop] at h
    split at h
    · exact absurd h (by simp)
    · split at h
      · exact absurd h (by simp)
      next codec hfind =>
        split at h
        · exact absurd h (by simp)
        next pt pool1 hpick =>
          split at h
          · exact absurd h (by simp)
          next hdup =>
            have hptnew : pt ∉
                acc.map RtpCodecCapabilityFinalized.preferredPayloadType := by
              intro hmem
              apply hdup
              rw [List.any_eq_true]
              obtain ⟨c, hc, hce⟩ := List.mem_map.mp hmem
              exact ⟨c, hc, beq_iff_eq.mpr hce⟩
            have hbranch :
                pool1.Nodup ∧
                (∀ p ∈ pool1, 96 ≤ p ∧ p ≤ 127) ∧
                (∀ p ∈ pool1,
                  p ∉ acc.map
                    RtpCodecCapabilityFinalized.preferredPayloadType) ∧
                (∀ p ∈ pool1, p ≠ pt) ∧
                (pt ≤ 127 ∨ P pt) := by
              rcases pickPreferredPayloadType_spec mc codec pool pt pool1
                  hpick with ⟨hmc, hp1⟩ | ⟨hmc, hcod, hp1⟩ | ⟨hmc, hcod, hp1⟩
              · subst hp1
                refine ⟨hpoolnd.filter _, ?_, ?_, ?_, ?_⟩
                · intro p hp
                  exact hpoolrange p (List.mem_of_mem_filter hp)
                · intro p hp
                  exact hdisj p (List.mem_of_mem_filter hp)
                · intro p hp
                  have := List.of_mem_filter hp
                  simpa using this
                · exact Or.inr (hP mc (List.mem_cons_self mc rest) pt hmc)
              · subst hp1
                have hmem := List.mem_of_find?_eq_some hfind
                have hsmall :=
                  (List.all_eq_true.mp supported_fixed_pts) codec hmem
                rw [capFixedPtSmall, hcod] at hsmall
                have hpt96 : pt < 96 := by simpa using hsmall
                refine ⟨hpoolnd, hpoolrange, hdisj, ?_, Or.inl (by omega)⟩
                intro p hp hpe
                have := (hpoolrange p hp).1
                omega
              · rw [hp1] at hpoolnd hpoolrange hdisj
                rw [List.nodup_cons] at hpoolnd
                refine ⟨hpoolnd.2, ?_, ?_, ?_, ?_⟩
                · intro p hp
                  exact hpoolrange p (List.mem_cons_of_mem pt hp)
                · intro p hp
                  exact hdisj p (List.mem_cons_of_mem pt hp)
                · intro p hp hpe
                  exact hpoolnd.1 (hpe ▸ hp)
                · exact Or.inl
                    (hpoolrange pt (List.mem_cons_self pt pool1)).2
            obtain ⟨hp1nd, hp1range, hp1disj, hp1nept, hptr⟩ := hbranch
            split at h
            next hvid =>
              split at h
              · exact absurd h (by simp)
              next pool1x rtxPt pool2 =>
                rw [List.nodup_cons] at hp1nd
                refine ih pool2 _ res h
                  (fun mc2 hmc2 q hq => hP mc2
                    (List.mem_cons_of_mem mc hmc2) q hq)
                  hp1nd.2
                  (fun p hp =>
                    hp1range p (List.mem_cons_of_mem rtxPt hp)) ?_ ?_ ?_
                · rw [List.map_append]
                  simp only [List.map_cons, List.map_nil, finalizeCodec_pt,
                    preferredPayloadType_video]
                  exact nodup_append_two _ pt rtxPt hnd hptnew
                    (hp1disj rtxPt (List.mem_cons_self rtxPt pool2))
                    (hp1nept rtxPt (List.mem_cons_self rtxPt pool2))
                · intro p hp
                  rw [List.map_append]
                  simp only [List.map_cons, List.map_nil, finalizeCodec_pt,
                    preferredPayloadType_video]
                  rw [List.mem_append]
                  rintro (hpm | hpm)
                  · exact hp1disj p (List.mem_cons_of_mem rtxPt hp) hpm
                  · rcases List.mem_cons.mp hpm with hpm | hpm
                    · exact hp1nept p (List.mem_cons_of_mem rtxPt hp) hpm
                    · rw [List.mem_singleton] at hpm
                      exact hp1nd.1 (hpm ▸ hp)
                · intro c hc
                  rw [List.mem_append] at hc
                  rcases hc with hc | hc
                  · exact hrange c hc
                  · rcases List.mem_cons.mp hc with hc | hc
                    · rw [hc, finalizeCodec_pt]
                      exact hptr
                    · rw [List.mem_singleton] at hc
                      rw [hc]
                      exact Or.inl (hp1range rtxPt
                        (List.mem_cons_self rtxPt pool2)).2
            next hnvid =>
              refine ih pool1 _ res h
                (fun mc2 hmc2 q hq => hP mc2
                  (List.mem_cons_of_mem mc hmc2) q hq)
                hp1nd hp1range ?_ ?_ ?_
              · rw [List.map_append]
                simp only [List.map_cons, List.map_nil, finalizeCodec_pt,
                  preferredPayloadType_video]
                exact nodup_append_one _ pt hnd hptnew
              · intro p hp
                rw [List.map_append]
                simp only [List.map_cons, List.map_nil, finalizeCodec_pt,
                  preferredPayloadType_video]
                rw [List.mem_append]
                rintro (hpm | hpm)
                · exact hp1disj p hp hpm
                · rw [List.mem_singleton] at hpm
                  exact hp1nept p hp hpm
              · intro c hc
                rw [List.mem_append] at hc
                rcases hc with hc | hc
                · exact hrange c hc
                · rw [List.mem_singleton] at hc
                  rw [hc, finalizeCodec_pt]
                  exact hptr

/-- C3 (amended): in every successfully finalized capability set the
preferred payload types are pairwise distinct; every payload type not
explicitly supplied by the caller lies in 0–127 (a caller-supplied
`preferred_payload_type` is adopted unchecked, so values above 127 appear
verbatim). -/
theorem finalized_pts_unique (mediaCodecs : List RtpCodecCapability)
    (F : RtpCapabilitiesFinalized)
    (h : generate_router_rtp_capabilities mediaCodecs = .ok F) :
    (F.codecs.map RtpCodecCapabilityFinalized.preferredPayloadType).Nodup ∧
    ∀ c ∈ F.codecs, c.preferredPayloadType ≤ 127 ∨
      ∃ mc ∈ mediaCodecs,
        mc.preferredPayloadType = some c.preferredPayloadType := by
  unfold generate_router_rtp_capabilities at h
  split at h
  · exact absurd h (by simp)
  · split at h
    · exact absurd h (by simp)
    next codecs heq =>
      rw [← (Except.ok.injEq _ _).mp h]
      exact generateLoop_pts
        (fun q => ∃ mc ∈ mediaCodecs, mc.preferredPayloadType = some q)
        mediaCodecs dynamicPayloadTypes [] codecs heq
        (fun mc hmc q hq => ⟨mc, hmc, hq⟩)
        (by decide) (by decide) (by simp) (by simp) (by simp)

/-- The C3 input refuting the range half of the claim: Opus with a
caller-supplied preferred payload type of 200. -/
def c3Input : List RtpCodecCapability :=
  [.audio .Opus (some 200) 48000 2 [] []]

/-- Counterexample to C3 as stated: the finalizer succeeds on `c3Input`,
yet not every preferred payload type of the result lies in 0–127 (the
caller-supplied 200 is adopted verbatim). -/
theorem finalized_pts_range_counterexample :
    (generate_router_rtp_capabilities c3Input).map
      (fun F => F.codecs.all
        (fun c => decide (c.preferredPayloadType ≤ 127))) = .ok false := by
  decide

/-- Witness for the amended C3 theorem at the concrete input. -/
theorem finalized_pts_unique_witness :
    ((RtpCapabilitiesFinalized.mk
      [.audio .Opus 200 48000 2 [] [.TransportCC]]
      supportedRtpCapabilities.headerExtensions []).codecs.map
        RtpCodecCapabilityFinalized.preferredPayloadType).Nodup :=
  (finalized_pts_unique c3Input _ (by decide)).1

/-! ### Structure of the producer codec-to-capability map -/

/-- What the first pass guarantees: all non-RTX codecs of the processed list
become keys, keys only grow, new keys come from the processed list,
sortedness is preserved, and every value shares its preferred payload type
with some capability codec. -/
theorem collectMediaCodecs_spec
    (capCodecs : List RtpCodecCapabilityFinalized)
    (l : List RtpCodecParameters) :
    ∀ (m m2 : CodecCapMap),
    collectMediaCodecs capCodecs l m = .ok m2 →
    ((∀ c ∈ l, c.isRtx = false → c ∈ m2.map Prod.fst) ∧
     (∀ x ∈ m.map Prod.fst, x ∈ m2.map Prod.fst) ∧
     (∀ x ∈ m2.map Prod.fst, x ∈ m.map Prod.fst ∨ x ∈ l) ∧
     (omKeysSorted codecCmp m → omKeysSorted codecCmp m2) ∧
     (∀ v ∈ m2.map Prod.snd, v ∈ m.map Prod.snd ∨
       ∃ cap ∈ capCodecs,
         cap.preferredPayloadType = v.preferredPayloadType)) := by
  induction l with
  | nil =>
    intro m m2 h
    simp only [collectMediaCodecs] at h
    rw [← (Except.ok.injEq _ _).mp h]
    exact ⟨by simp, fun x hx => hx, fun x hx => Or.inl hx, fun hs => hs,
      fun v hv => Or.inl hv⟩
  | cons c rest ih =>
    intro m m2 h
    simp only [collectMediaCodecs] at h
    split at h
    next hrtx =>
      obtain ⟨ih1, ih2, ih3, ih4, ih5⟩ := ih m m2 h
      refine ⟨?_, ih2, ?_, ih4, ih5⟩
      · intro c2 hc2 hc2rtx
        rcases List.mem_cons.mp hc2 with hc2 | hc2
        · rw [hc2] at hc2rtx
          rw [hrtx] at hc2rtx
          exact absurd hc2rtx (by simp)
        · exact ih1 c2 hc2 hc2rtx
      · intro x hx
        rcases ih3 x hx with hx2 | hx2
        · exact Or.inl hx2
        · exact Or.inr (List.mem_cons_of_mem c hx2)
    next hrtx =>
      split at h
      next matched hfound =>
        obtain ⟨ih1, ih2, ih3, ih4, ih5⟩ := ih _ m2 h
        have hmatched : ∃ cap ∈ capCodecs,
            cap.preferredPayloadType = matched.preferredPayloadType := by
          obtain ⟨capCodec, hcap, hf⟩ :=
            List.exists_of_findSome?_eq_some hfound
          obtain ⟨aug, -, hfe⟩ := Option.map_eq_some'.mp hf
          refine ⟨capCodec, hcap, ?_⟩
          rcases aug with _ | plid
          · rw [← hfe]
          · rw [← hfe, preferredPayloadType_insertParameter]
        refine ⟨?_, ?_, ?_, ?_, ?_⟩
        · intro c2 hc2 hc2rtx
          rcases List.mem_cons.mp hc2 with hc2 | hc2
          · rw [hc2]
            exact ih2 c (omInsert_self_mem_keys m)
          · exact ih1 c2 hc2 hc2rtx
        · intro x hx
          exact ih2 x (omInsert_keys_mono lawCmp_codecCmp hx)
        · intro x hx
          rcases ih3 x hx with hx2 | hx2
          · rcases omInsert_keys_subset hx2 with hx3 | hx3
            · exact Or.inr (hx3 ▸ List.mem_cons_self c rest)
            · exact Or.inl hx3
          · exact Or.inr (List.mem_cons_of_mem c hx2)
        · intro hs
          exact ih4 (omInsert_sorted lawCmp_codecCmp hs)
        · intro v hv
          rcases ih5 v hv with hv2 | hv2
          · rcases omInsert_values_subset hv2 with hv3 | hv3
            · exact Or.inr (hv3 ▸ hmatched)
            · exact Or.inl hv3
          · exact Or.inr hv2
      next hfound =>
        exact absurd h (by simp)

/-- What the second pass guarantees, analogously, for RTX codecs. -/
theorem collectRtxCodecs_spec (allCodecs : List RtpCodecParameters)
    (capCodecs : List RtpCodecCapabilityFinalized)
    (l : List RtpCodecParameters) :
    ∀ (m m2 : CodecCapMap),
    collectRtxCodecs allCodecs capCodecs l m = some (.ok m2) →
    ((∀ c ∈ l, c.isRtx = true → c ∈ m2.map Prod.fst) ∧
     (∀ x ∈ m.map Prod.fst, x ∈ m2.map Prod.fst) ∧
     (∀ x ∈ m2.map Prod.fst, x ∈ m.map Prod.fst ∨ x ∈ l) ∧
     (omKeysSorted codecCmp m → omKeysSorted codecCmp m2) ∧
     (∀ v ∈ m2.map Prod.snd, v ∈ m.map Prod.snd ∨
       ∃ cap ∈ capCodecs,
         cap.preferredPayloadType = v.preferredPayloadType)) := by
  induction l with
  | nil =>
    intro m m2 h
    simp only [collectRtxCodecs] at h
    have hme : m = m2 := by
      have := (Option.some.injEq _ _).mp h
      exact (Except.ok.injEq _ _).mp this
    rw [← hme]
    exact ⟨by simp, fun x hx => hx, fun x hx => Or.inl hx, fun hs => hs,
      fun v hv => Or.inl hv⟩
  | cons c rest ih =>
    intro m m2 h
    simp only [collectRtxCodecs] at h
    split at h
    next hrtx =>
      rw [Bool.not_eq_true'] at hrtx
      obtain ⟨ih1, ih2, ih3, ih4, ih5⟩ := ih m m2 h
      refine ⟨?_, ih2, ?_, ih4, ih5⟩
      · intro c2 hc2 hc2rtx
        rcases List.mem_cons.mp hc2 with hc2 | hc2
        · rw [hc2] at hc2rtx
          rw [hc2rtx] at hrtx
          exact absurd hrtx (by simp)
        · exact ih1 c2 hc2 hc2rtx
      · intro x hx
        rcases ih3 x hx with hx2 | hx2
        · exact Or.inl hx2
        · exact Or.inr (List.mem_cons_of_mem c hx2)
    next hrtx =>
      split at h
      next assoc hassoc =>
        split at h
        · exact absurd h (by simp)
        next capMedia hcm =>
          split at h
          next capRtx hcr =>
            obtain ⟨ih1, ih2, ih3, ih4, ih5⟩ := ih _ m2 h
            refine ⟨?_, ?_, ?_, ?_, ?_⟩
            · intro c2 hc2 hc2rtx
              rcases List.mem_cons.mp hc2 with hc2 | hc2
              · rw [hc2]
                exact ih2 c (omInsert_self_mem_keys m)
              · exact ih1 c2 hc2 hc2rtx
            · intro x hx
              exact ih2 x (omInsert_keys_mono lawCmp_codecCmp hx)
            · intro x hx
              rcases ih3 x hx with hx2 | hx2
              · rcases omInsert_keys_subset hx2 with hx3 | hx3
                · exact Or.inr (hx3 ▸ List.mem_cons_self c rest)
                · exact Or.inl hx3
              · exact Or.inr (List.mem_cons_of_mem c hx2)
            · intro hs
              exact ih4 (omInsert_sorted lawCmp_codecCmp hs)
            · intro v hv
              rcases ih5 v hv with hv2 | hv2
              · rcases omInsert_values_subset hv2 with hv3 | hv3
                · refine Or.inr ⟨capRtx, ?_, by rw [hv3]⟩
                  have hmem := List.mem_of_find?_eq_some hcr
                  exact hmem
                · exact Or.inl hv3
              · exact Or.inr hv2
          next hcr =>
            exact absurd h (by simp)
      next hassoc =>
        exact absurd h (by simp)

/-- C1 (amended): the mapping's codec entries are emitted by iterating the
`codec_to_cap_codec` `BTreeMap`, i.e. one entry per distinct producer codec
(every producer codec is a key, every key is a producer codec, keys are
pairwise distinct), but in the map's ascending codec-key order — which need
not be the producer's codec-list order. -/
theorem producer_mapping_codecs (p : RtpParameters)
    (caps : RtpCapabilitiesFinalized) (baseSsrc : Nat) (CM : CodecCapMap)
    (hb : buildCodecToCapMap p caps = some (.ok CM)) :
    get_producer_rtp_parameters_mapping p caps baseSsrc =
      some (.ok
        { codecs := CM.map (fun q =>
            ⟨q.1.payloadType, q.2.preferredPayloadType⟩)
          encodings := p.encodings.enum.map (fun q =>
            ⟨q.2.ssrc, q.2.rid, q.2.scalabilityMode, baseSsrc + q.1⟩) }) ∧
    (∀ c ∈ p.codecs, c ∈ CM.map Prod.fst) ∧
    (∀ k ∈ CM.map Prod.fst, k ∈ p.codecs) ∧
    (CM.map Prod.fst).Nodup ∧
    omKeysSorted codecCmp CM := by
  have hmain : get_producer_rtp_parameters_mapping p caps baseSsrc =
      some (.ok
        { codecs := CM.map (fun q =>
            ⟨q.1.payloadType, q.2.preferredPayloadType⟩)
          encodings := p.encodings.enum.map (fun q =>
            ⟨q.2.ssrc, q.2.rid, q.2.scalabilityMode, baseSsrc + q.1⟩) }) := by
    simp only [get_producer_rtp_parameters_mapping, hb]
  unfold buildCodecToCapMap at hb
  rcases hm1 : collectMediaCodecs caps.codecs p.codecs [] with e | m1 <;>
    rw [hm1] at hb
  · exact absurd hb (by simp)
  · obtain ⟨p1a, p1b, p1c, p1d, p1e⟩ :=
      collectMediaCodecs_spec caps.codecs p.codecs [] m1 hm1
    obtain ⟨p2a, p2b, p2c, p2d, p2e⟩ :=
      collectRtxCodecs_spec p.codecs caps.codecs p.codecs m1 CM hb
    have hsorted : omKeysSorted codecCmp CM :=
      p2d (p1d (by simp [omKeysSorted]))
    refine ⟨hmain, ?_, ?_, ?_, hsorted⟩
    · intro c hc
      by_cases hr : c.isRtx = true
      · exact p2a c hc hr
      · exact p2b c (p1a c hc (by simpa using hr))
    · intro k hk
      rcases p2c k hk with hk2 | hk2
      · rcases p1c k hk2 with hk3 | hk3
        · simp at hk3
        · exact hk3
      · exact hk2
    · have hpair : (CM.map Prod.fst).Pairwise
          (fun a b => codecCmp a b = .lt) :=
        List.Pairwise.map Prod.fst (fun a b hab => hab) hsorted
      exact hpair.imp (fun hab => lawCmp_codecCmp.lt_ne hab)

/-- The producer parameters of the C1 counterexample: two VP8 codecs with
payload types 120 and 100, in that order. -/
def c1P : RtpParameters :=
  { codecs := [.video .VP8 120 90000 [] [], .video .VP8 100 90000 [] []] }

/-- Finalized capabilities accepting VP8. -/
def c1F : RtpCapabilitiesFinalized :=
  { codecs := [.video .VP8 101 90000 [] []] }

/-- The codec-to-capability map the mapping builder produces for `c1P`. -/
def c1CM : CodecCapMap :=
  [(.video .VP8 100 90000 [] [], .video .VP8 101 90000 [] []),
   (.video .VP8 120 90000 [] [], .video .VP8 101 90000 [] [])]

/-- Counterexample to C1 as stated: the mapping succeeds for `c1P`, but its
codec entries appear as payload types `[100, 120]`, while the producer's
codec list is ordered `[120, 100]` — the `BTreeMap` iterates in codec-key
order, not in the producer's list order. -/
theorem producer_mapping_order_counterexample :
    get_producer_rtp_parameters_mapping c1P c1F 5 =
      some (.ok { codecs := [⟨100, 101⟩, ⟨120, 101⟩], encodings := [] }) ∧
    c1P.codecs.map RtpCodecParameters.payloadType = [120, 100] ∧
    ([(⟨100, 101⟩ : RtpMappingCodec), ⟨120, 101⟩].map
        RtpMappingCodec.payloadType ≠
      c1P.codecs.map RtpCodecParameters.payloadType) := by
  refine ⟨by decide, by decide, by decide⟩

/-- Witness for the amended C1 theorem at the concrete input. -/
theorem producer_mapping_codecs_witness : (c1CM.map Prod.fst).Nodup :=
  (producer_mapping_codecs c1P c1F 5 c1CM (by decide)).2.2.2.1

/-- The codec loop of the consumable builder cannot panic when every non-RTX
codec has a mapping entry and every mapping entry's mapped payload type is
carried by some capability codec. -/
theorem consumableCodecsLoop_isSome (caps : RtpCapabilitiesFinalized)
    (M : RtpMapping)
    (hmapped : ∀ e ∈ M.codecs, ∃ cap ∈ caps.codecs,
      cap.preferredPayloadType = e.mappedPayloadType) :
    ∀ (l : List RtpCodecParameters),
    (∀ c ∈ l, c.isRtx = false →
      ∃ e ∈ M.codecs, e.payloadType = c.payloadType) →
    (consumableCodecsLoop caps M l).isSome := by
  intro l
  induction l with
  | nil =>
    intro _
    simp [consumableCodecsLoop]
  | cons c rest ih =>
    intro hl
    simp only [consumableCodecsLoop]
    split
    · exact ih (fun c2 hc2 => hl c2 (List.mem_cons_of_mem c hc2))
    next hrtx =>
      have hfind1 : (M.codecs.find? (fun entry =>
          entry.payloadType == c.payloadType)).isSome := by
        rw [List.find?_isSome]
        obtain ⟨e, he, hee⟩ := hl c (List.mem_cons_self c rest)
          (by simpa using hrtx)
        exact ⟨e, he, beq_iff_eq.mpr hee⟩
      rcases hf1 : M.codecs.find? (fun entry =>
          entry.payloadType == c.payloadType) with _ | entry
      · rw [hf1] at hfind1
        simp at hfind1
      · have hentry := List.mem_of_find?_eq_some hf1
        obtain ⟨cap, hcap, hcapeq⟩ := hmapped entry hentry
        have hfind2 : (caps.codecs.find? (fun capCodec =>
            capCodec.preferredPayloadType == entry.mappedPayloadType)).isSome
            := by
          rw [List.find?_isSome]
          exact ⟨cap, hcap, beq_iff_eq.mpr hcapeq⟩
        rcases hf2 : caps.codecs.find? (fun capCodec =>
            capCodec.preferredPayloadType == entry.mappedPayloadType)
            with _ | capCodec
        · rw [hf2] at hfind2
          simp at hfind2
        · have htail := ih (fun c2 hc2 => hl c2 (List.mem_cons_of_mem c hc2))
          rcases ht : consumableCodecsLoop caps M rest with _ | tail
          · rw [ht] at htail
            simp at htail
          · simp only [hf1, Option.map_some', hf2, ht]
            split <;> simp

/-- C2: the consumable builder is infallible on the mapping produced for the
same producer parameters and capabilities: both internal lookups (the
mapping entry of each non-RTX producer codec by payload type, and the
capability codec carrying the mapped payload type) succeed, so
`get_consumable_rtp_parameters` returns a value. -/
theorem consumable_infallible (kind : MediaKind) (p : RtpParameters)
    (caps : RtpCapabilitiesFinalized) (baseSsrc : Nat) (M : RtpMapping)
    (h : get_producer_rtp_parameters_mapping p caps baseSsrc =
      some (.ok M)) :
    (get_consumable_rtp_parameters kind p caps M).isSome := by
  unfold get_producer_rtp_parameters_mapping at h
  rcases hb : buildCodecToCapMap p caps with _ | r <;> rw [hb] at h
  · simp at h
  · rcases r with e | CM
    · simp at h
    · have hM : M.codecs = CM.map (fun q =>
          (⟨q.1.payloadType, q.2.preferredPayloadType⟩ : RtpMappingCodec))
          := by
        have h2 := (Option.some.injEq _ _).mp h
        have h3 := (Except.ok.injEq _ _).mp h2
        rw [← h3]
      unfold buildCodecToCapMap at hb
      rcases hm1 : collectMediaCodecs caps.codecs p.codecs [] with e | m1 <;>
        rw [hm1] at hb
      · simp at hb
      · obtain ⟨p1a, p1b, p1c, p1d, p1e⟩ :=
          collectMediaCodecs_spec caps.codecs p.codecs [] m1 hm1
        obtain ⟨p2a, p2b, p2c, p2d, p2e⟩ :=
          collectRtxCodecs_spec p.codecs caps.codecs p.codecs m1 CM hb
        have hvalues : ∀ v ∈ CM.map Prod.snd, ∃ cap ∈ caps.codecs,
            cap.preferredPayloadType = v.preferredPayloadType := by
          intro v hv
          rcases p2e v hv with hv2 | hv2
          · rcases p1e v hv2 with hv3 | hv3
            · simp at hv3
            · exact hv3
          · exact hv2
        have hmapped : ∀ e ∈ M.codecs, ∃ cap ∈ caps.codecs,
            cap.preferredPayloadType = e.mappedPayloadType := by
          intro e he
          rw [hM] at he
          simp only [List.mem_map] at he
          obtain ⟨q, hq, hqe⟩ := he
          have hv : q.2 ∈ CM.map Prod.snd := List.mem_map_of_mem Prod.snd hq
          obtain ⟨cap, hcap, hcapeq⟩ := hvalues q.2 hv
          exact ⟨cap, hcap, by rw [← hqe, hcapeq]⟩
        have hkeys : ∀ c ∈ p.codecs, c.isRtx = false →
            ∃ e ∈ M.codecs, e.payloadType = c.payloadType := by
          intro c hc hcr
          have hck : c ∈ CM.map Prod.fst := p2b c (p1a c hc hcr)
          obtain ⟨q, hq, hqe⟩ := List.mem_map.mp hck
          refine ⟨⟨q.1.payloadType, q.2.preferredPayloadType⟩, ?_, by
            rw [hqe]⟩
          rw [hM]
          exact List.mem_map_of_mem _ hq
        have hloop := consumableCodecsLoop_isSome caps M hmapped p.codecs
          hkeys
        unfold get_consumable_rtp_parameters
        rcases hres : consumableCodecsLoop caps M p.codecs with _ | cs
        · rw [hres] at hloop
          simp at hloop
        · simp

/-- Witness for the C2 theorem at the concrete input of `c1P`/`c1F`. -/
theorem consumable_infallible_witness :
    (get_consumable_rtp_parameters .Video c1P c1F
      { codecs := [⟨100, 101⟩, ⟨120, 101⟩], encodings := [] }).isSome :=
  consumable_infallible .Video c1P c1F 5 _ (by decide)

/-- The second pass cannot hit its `.unwrap()` when payload types are
pairwise distinct and every RTX codec points at a present non-RTX codec. -/
theorem collectRtxCodecs_isSome (allCodecs : List RtpCodecParameters)
    (capCodecs : List RtpCodecCapabilityFinalized)
    (hnd : (allCodecs.map RtpCodecParameters.payloadType).Nodup)
    (hapt : ∀ c ∈ allCodecs, c.isRtx = true →
      ∃ mc ∈ allCodecs, mc.isRtx = false ∧
        paramsGet c.parameters "apt" = some (.num mc.payloadType)) :
    ∀ (l : List RtpCodecParameters) (m : CodecCapMap),
    (∀ c ∈ l, c ∈ allCodecs) →
    (∀ c ∈ allCodecs, c.isRtx = false → c ∈ m.map Prod.fst) →
    (collectRtxCodecs allCodecs capCodecs l m).isSome := by
  intro l
  induction l with
  | nil =>
    intro m _ _
    simp [collectRtxCodecs]
  | cons c rest ih =>
    intro m hsub hkeys
    simp only [collectRtxCodecs]
    split
    · exact ih m (fun c2 hc2 => hsub c2 (List.mem_cons_of_mem c hc2)) hkeys
    next hrtx =>
      have hcrtx : c.isRtx = true := by
        revert hrtx
        cases c.isRtx <;> simp
      obtain ⟨mc, hmc, hmcr, hmcapt⟩ :=
        hapt c (hsub c (List.mem_cons_self c rest)) hcrtx
      have hfind : (findAssociatedMediaCodec allCodecs c).isSome := by
        rw [findAssociatedMediaCodec, List.find?_isSome]
        refine ⟨mc, hmc, ?_⟩
        rw [hmcapt]
        simp
      rcases hassoc : findAssociatedMediaCodec allCodecs c with _ | assoc
      · rw [hassoc] at hfind
        simp at hfind
      · have hassocmem : assoc ∈ allCodecs :=
          List.mem_of_find?_eq_some hassoc
        have hassocpt : assoc.payloadType = mc.payloadType := by
          have := List.find?_some hassoc
          rw [hmcapt] at this
          simpa using this
        have hassoceq : assoc = mc :=
          List.inj_on_of_nodup_map hnd hassocmem hmc hassocpt
        have hassockey : assoc ∈ m.map Prod.fst :=
          hkeys assoc hassocmem (hassoceq ▸ hmcr)
        have homf := omFind?_isSome_of_mem_keys lawCmp_codecCmp hassockey
        rcases hcm : omFind? codecCmp assoc m with _ | capMedia
        · rw [hcm] at homf
          simp at homf
        · rcases hcr : findCapRtxCodec capCodecs
              capMedia.preferredPayloadType with _ | capRtx
          · simp [hassoc, hcm, hcr]
          · have htail := ih (omInsert codecCmp c capRtx m)
              (fun c2 hc2 => hsub c2 (List.mem_cons_of_mem c hc2))
              (fun c2 hc2 hc2r =>
                omInsert_keys_mono lawCmp_codecCmp (hkeys c2 hc2 hc2r))
            simpa [hassoc, hcm, hcr] using htail

/-- C10: when the producer's payload types are pairwise distinct and every
RTX codec's `apt` names the payload type of a non-RTX codec present in the
producer parameters, `get_producer_rtp_parameters_mapping` never panics —
the internal map lookup of the associated media codec's capability always
succeeds, so the function returns a mapping or one of its declared
errors. -/
theorem producer_mapping_no_panic (p : RtpParameters)
    (caps : RtpCapabilitiesFinalized) (baseSsrc : Nat)
    (hnd : (p.codecs.map RtpCodecParameters.payloadType).Nodup)
    (hapt : ∀ c ∈ p.codecs, c.isRtx = true →
      ∃ mc ∈ p.codecs, mc.isRtx = false ∧
        paramsGet c.parameters "apt" = some (.num mc.payloadType)) :
    (get_producer_rtp_parameters_mapping p caps baseSsrc).isSome := by
  rcases hm1 : collectMediaCodecs caps.codecs p.codecs [] with e | m1
  · simp [get_producer_rtp_parameters_mapping, buildCodecToCapMap, hm1]
  · obtain ⟨p1a, -, -, -, -⟩ :=
      collectMediaCodecs_spec caps.codecs p.codecs [] m1 hm1
    have h2 := collectRtxCodecs_isSome p.codecs caps.codecs hnd hapt
      p.codecs m1 (fun c hc => hc) p1a
    rcases hr : collectRtxCodecs p.codecs caps.codecs p.codecs m1
        with _ | r
    · rw [hr] at h2
      simp at h2
    · rcases r with e2 | m2 <;>
        simp [get_producer_rtp_parameters_mapping, buildCodecToCapMap,
          hm1, hr]

/-- Witness for the C10 theorem at a concrete producer with a VP8 codec and
its RTX codec. -/
theorem producer_mapping_no_panic_witness :
    (get_producer_rtp_parameters_mapping
      { codecs := [.video .VP8 96 90000 [] [],
                   .video .RTX 97 90000 [("apt", .num 96)] []] }
      c1F 5).isSome :=
  producer_mapping_no_panic _ c1F 5 (by decide) (by decide)

/-- Witness for the C7 theorem: the finalizer run on VP8 alone yields a
companion-shaped codec list. -/
theorem finalized_rtx_companions_witness :
    rtxCompanionOk (RtpCapabilitiesFinalized.mk
      [.video .VP8 100 90000 []
        [.Nack, .NackPli, .CcmFir, .GoogRemb, .TransportCC],
       .video .RTX 101 90000 [("apt", .num 100)] []]
      supportedRtpCapabilities.headerExtensions []).codecs = true :=
  finalized_rtx_companions [.video .VP8 none 90000 [] []] _ (by decide)

end Ortc
